import Mathlib

/-!
Shallow embedding of the hybrid retrieval engine of
`src/kler/backend/app/rag_pipeline.py` (classes `VectorIndex`, `BM25Index`,
`Retriever`), together with proofs settling the frozen claims about it.

Modelling conventions:
* Python dictionaries used as documents become `Doc`: an ordered association
  list of string keys to `PyVal` values, plus an `oid : Nat` standing for the
  Python object identity `id(doc)` (the fusion step keys its rank table on
  `id(doc)`).
* Python floats are idealized as exact arithmetic: configuration scalars and
  incrementally-maintained statistics are `ℚ`; values produced through
  `math.log` / `math.exp` / `math.sqrt` live in `ℝ`.  The literal `1e-9` is
  modelled as the exact rational `1/10^9`.
* A Python function that can `raise` is modelled as returning `Option`
  (`none` = an exception escaped the call).
* Python's `list.sort` is a stable sort; `List.insertionSort` (also stable)
  is extensionally the same function on every comparison key used here.
* The default tokenizer's `\W`/`lower()` are modelled on ASCII
  (`Char.isAlphanum`); no claim exercises non-ASCII text.
-/

namespace KlerRag

/-- A Python value as far as the engine inspects one: a string, a number, or
anything else (the code only ever tests `isinstance(..., str)` on fields). -/
inductive PyVal where
  | pstr (s : String)
  | pnum (q : ℚ)
  | pother
deriving DecidableEq, Repr

/-- A Python dict used as a document: object identity plus its fields. -/
structure Doc where
  oid : Nat
  fields : List (String × PyVal)
deriving DecidableEq, Repr

instance : Inhabited Doc := ⟨⟨0, []⟩⟩

def contentKey : String := "content"

def idKey : String := "id"

/-- `d.get key`: first binding of `key` (dict keys are unique in Python, so
first = the binding). `none` models the key being absent. -/
def Doc.get (d : Doc) (key : String) : Option PyVal :=
  (d.fields.find? (fun p => p.1 = key)).map (fun p => p.2)

/-- `True` iff the document's `content` field exists and is a string. -/
def Doc.strContent (d : Doc) : Bool :=
  match d.get contentKey with
  | some (PyVal.pstr _) => true
  | _ => false

/-- The `content` string of a document, when it exists and is a string. -/
def Doc.contentStr (d : Doc) : Option String :=
  match d.get contentKey with
  | some (PyVal.pstr s) => some s
  | _ => none

/-- The `id` field of a document, when present. -/
def Doc.idVal (d : Doc) : Option PyVal := d.get idKey

/-! ## Tokenizer (`BM25Index._default_tokenizer`)

`re.split(r"\W+", text.lower())` followed by dropping empty strings returns
exactly the maximal runs of word characters (`[A-Za-z0-9_]`), in order.
`tokenizeChars` computes those runs directly. -/

def isWordChar (c : Char) : Bool := c.isAlphanum || c = '_'

def tokenizeChars : List Char → List Char → List String
  | [], acc => if acc.isEmpty then [] else [String.mk acc.reverse]
  | c :: rest, acc =>
    if isWordChar c then tokenizeChars rest (c :: acc)
    else if acc.isEmpty then tokenizeChars rest []
    else String.mk acc.reverse :: tokenizeChars rest []

def default_tokenizer (text : String) : List String :=
  tokenizeChars (text.toList.map Char.toLower) []

/-! ## Dense index (`VectorIndex`)

Vector components are `ℚ` (exact Python floats); distances, which go through
`math.sqrt`, are `ℝ`. -/

inductive DistMetric where
  | cosine
  | euclidean
deriving DecidableEq

/-- The mutable state of a `VectorIndex` object. -/
structure VectorIndexState where
  vectors : List (List ℚ)
  documents : List Doc
  vector_dim : Option Nat
  distance_metric : DistMetric
  embedding_fn : Option (String → List ℚ)

/-- `VectorIndex.__init__` with a valid metric. -/
def vinit (metric : DistMetric) (emb : Option (String → List ℚ)) : VectorIndexState :=
  { vectors := [], documents := [], vector_dim := none,
    distance_metric := metric, embedding_fn := emb }

/-- `VectorIndex.add_vector`.  The vector/document type checks of the source
are carried by the Lean types; `"content" not in document` raises. -/
def add_vector (st : VectorIndexState) (vector : List ℚ) (document : Doc) :
    Option VectorIndexState :=
  if document.get contentKey = none then none
  else if st.vectors.isEmpty then
    some { st with vector_dim := some vector.length,
                   vectors := st.vectors ++ [vector],
                   documents := st.documents ++ [document] }
  else if st.vector_dim ≠ some vector.length then none
  else
    some { st with vectors := st.vectors ++ [vector],
                   documents := st.documents ++ [document] }

/-- `VectorIndex.add_document`: requires an embedding function, a `content`
key holding a string, then embeds and delegates to `add_vector`. -/
def vadd_document (st : VectorIndexState) (document : Doc) :
    Option VectorIndexState :=
  match st.embedding_fn with
  | none => none
  | some f =>
    match document.get contentKey with
    | some (PyVal.pstr content) => add_vector st (f content) document
    | _ => none

/-- `VectorIndex.add_documents`: validates every document's `content` first,
then embeds the batch (modelled per item; the source batches the embedding
call, an optimization with the same per-item result) and adds each vector. -/
def vadd_documents (st : VectorIndexState) (docs : List Doc) :
    Option VectorIndexState :=
  match st.embedding_fn with
  | none => none
  | some f =>
    if docs.isEmpty then some st
    else
      match docs.mapM Doc.contentStr with
      | none => none
      | some contents =>
        ((contents.map f).zip docs).foldlM
          (fun s p => add_vector s p.1 p.2) st

def sumSq (v : List ℚ) : ℚ := (v.map (fun x => x * x)).sum

/-- `VectorIndex._magnitude`. -/
noncomputable def magnitude (v : List ℚ) : ℝ := Real.sqrt ((sumSq v : ℚ) : ℝ)

/-- `VectorIndex._dot_product`.  The source raises on a length mismatch; it is
only ever called behind `_cosine_distance`'s own length check, under which the
truncating `zip` agrees with it. -/
def dot_product (v1 v2 : List ℚ) : ℚ :=
  ((v1.zip v2).map (fun p => p.1 * p.2)).sum

/-- `VectorIndex._cosine_distance`. -/
noncomputable def cosine_distance (v1 v2 : List ℚ) : Option ℝ :=
  if v1.length ≠ v2.length then none
  else if magnitude v1 = 0 ∧ magnitude v2 = 0 then some 0
  else if magnitude v1 = 0 ∨ magnitude v2 = 0 then some 1
  else
    some (1 - max (-1 : ℝ)
      (min 1 (((dot_product v1 v2 : ℚ) : ℝ) / (magnitude v1 * magnitude v2))))

/-- `VectorIndex._euclidean_distance`. -/
noncomputable def euclidean_distance (v1 v2 : List ℚ) : Option ℝ :=
  if v1.length ≠ v2.length then none
  else
    some (Real.sqrt ((((v1.zip v2).map (fun p => (p.1 - p.2) * (p.1 - p.2))).sum : ℚ) : ℝ))

/-- A query as `VectorIndex.search` receives it: a string, a list of numbers,
or anything else (which raises a `TypeError`). -/
inductive VQuery where
  | qstr (s : String)
  | qvec (v : List ℚ)
  | qother

/-- `VectorIndex.search`, guard for guard in source order: empty index first,
then query typing/embedding, dimension check, `k` check, then distances
sorted ascending (stable) and truncated to `k`. -/
noncomputable def vsearch (st : VectorIndexState) (query : VQuery) (k : Int) :
    Option (List (Doc × ℝ)) :=
  if st.vectors.isEmpty then some []
  else
    match (match query with
           | VQuery.qstr s =>
             match st.embedding_fn with
             | none => none
             | some f => some (f s)
           | VQuery.qvec v => some v
           | VQuery.qother => none) with
    | none => none
    | some query_vector =>
      match st.vector_dim with
      | none => some []
      | some dim =>
        if query_vector.length ≠ dim then none
        else if k ≤ 0 then none
        else
          let dist := fun v =>
            match st.distance_metric with
            | DistMetric.cosine => cosine_distance query_vector v
            | DistMetric.euclidean => euclidean_distance query_vector v
          match st.vectors.mapM dist with
          | none => none
          | some ds =>
            let pairs := ds.zip st.documents
            let sorted := pairs.insertionSort (fun a b => a.1 ≤ b.1)
            some ((sorted.take k.toNat).map (fun p => (p.2, p.1)))

/-! ## Lexical index (`BM25Index`)

Incrementally-maintained statistics are exact (`Nat`/`ℚ`); the IDF table,
which goes through `math.log`, holds `ℝ` values.  Python dicts
(`_doc_freqs`, `_idf`) become insertion-ordered association lists with unique
keys. -/

/-- The mutable state of a `BM25Index` object.  The tokenizer
(`self._tokenizer`) is passed to each operation instead of being stored. -/
structure BM25State where
  documents : List Doc
  corpus_tokens : List (List String)
  doc_len : List Nat
  doc_freqs : List (String × Nat)
  avg_doc_len : ℚ
  idf : List (String × ℝ)
  index_built : Bool
  k1 : ℚ
  b : ℚ

/-- `BM25Index.__init__ (k1, b)`. -/
def bm25_init (k1 b : ℚ) : BM25State :=
  { documents := [], corpus_tokens := [], doc_len := [], doc_freqs := [],
    avg_doc_len := 0, idf := [], index_built := false, k1 := k1, b := b }

/-- Association-list lookup, first binding wins (dict keys are unique). -/
def alookup {α : Type} (l : List (String × α)) (key : String) : Option α :=
  (l.find? (fun p => p.1 = key)).map (fun p => p.2)

/-- One step of `_update_stats_add`'s document-frequency loop:
`self._doc_freqs[token] = self._doc_freqs.get(token, 0) + 1`. -/
def bumpFreq (freqs : List (String × Nat)) (t : String) : List (String × Nat) :=
  if freqs.any (fun p => p.1 = t) then
    freqs.map (fun p => if p.1 = t then (p.1, p.2 + 1) else p)
  else freqs ++ [(t, 1)]

/-- `BM25Index._update_stats_add`: append the document length, count each
distinct token once (`seen_in_doc`; `eraseDups` keeps first occurrences, the
order the Python loop inserts them), and mark the index stale. -/
def update_stats_add (st : BM25State) (doc_tokens : List String) : BM25State :=
  { st with doc_len := st.doc_len ++ [doc_tokens.length],
            doc_freqs := doc_tokens.eraseDups.foldl bumpFreq st.doc_freqs,
            index_built := false }

/-- `BM25Index._calculate_idf`:
`idf(t) = log(((N - df + 0.5) / (df + 0.5)) + 1)` over `N = len(documents)`. -/
noncomputable def calculate_idf (st : BM25State) : BM25State :=
  { st with idf := st.doc_freqs.map (fun p =>
      (p.1, Real.log ((((st.documents.length : ℝ) - (p.2 : ℝ) + 1 / 2) /
        ((p.2 : ℝ) + 1 / 2)) + 1))) }

/-- `BM25Index._build_index`. -/
noncomputable def build_index (st : BM25State) : BM25State :=
  if st.documents.isEmpty then
    { st with avg_doc_len := 0, idf := [], index_built := true }
  else
    calculate_idf
      { st with
          avg_doc_len :=
            ((st.doc_len.map (fun n => (Nat.cast n : ℚ))).sum) / (st.documents.length : ℚ),
          index_built := true }

/-- `BM25Index.add_document`: raises unless `content` exists and is a string
(an empty string passes), then stores the document, its tokens, and the
updated statistics. -/
def bm25_add_document (tok : String → List String) (st : BM25State)
    (document : Doc) : Option BM25State :=
  match document.get contentKey with
  | some (PyVal.pstr content) =>
    let doc_tokens := tok content
    some (update_stats_add
      { st with documents := st.documents ++ [document],
                corpus_tokens := st.corpus_tokens ++ [doc_tokens] } doc_tokens)
  | _ => none

/-- `BM25Index.add_documents`: per document the checks and updates are those
of `add_document`, applied left to right; the first invalid document
raises. -/
def bm25_add_documents (tok : String → List String) (st : BM25State)
    (docs : List Doc) : Option BM25State :=
  if docs.isEmpty then some st
  else docs.foldlM (fun s d => bm25_add_document tok s d) st

/-- The `1e-9` literal of the source (both the candidate threshold and the
denominator smoothing), idealized as the exact rational. -/
def epsScore : ℚ := 1 / 1000000000

/-- `BM25Index._compute_bm25_score`: fold over the query tokens; a token
absent from the IDF table is skipped (`continue`). -/
noncomputable def compute_bm25_score (st : BM25State) (query_tokens : List String)
    (doc_index : Nat) : ℝ :=
  let toks := st.corpus_tokens.getD doc_index []
  let doc_length := st.doc_len.getD doc_index 0
  query_tokens.foldl (fun score token =>
    match alookup st.idf token with
    | none => score
    | some idf =>
      let term_freq : ℝ := (toks.count token : ℝ)
      let numerator := idf * term_freq * ((st.k1 : ℝ) + 1)
      let denominator := term_freq + (st.k1 : ℝ) *
        (1 - (st.b : ℝ) + (st.b : ℝ) * ((doc_length : ℝ) / ((st.avg_doc_len : ℚ) : ℝ)))
      score + numerator / (denominator + ((epsScore : ℚ) : ℝ))) 0

/-- The `raw_scores` list of `BM25Index.search`: `(raw score, document)` for
each document position whose raw score exceeds `1e-9`, in corpus order. -/
noncomputable def bm25_raw_scores (st : BM25State) (query_tokens : List String) :
    List (ℝ × Doc) :=
  st.documents.enum.filterMap (fun p =>
    let raw := compute_bm25_score st query_tokens p.1
    if ((epsScore : ℚ) : ℝ) < raw then some (raw, p.2) else none)

/-- The `raw_scores.sort(reverse=True)` / `[:k]` stage of
`BM25Index.search`: stable sort descending by raw score, truncate to `k`. -/
noncomputable def bm25_topk (st1 : BM25State) (query_tokens : List String)
    (k : Int) : List (ℝ × Doc) :=
  ((bm25_raw_scores st1 query_tokens).insertionSort (fun a b => b.1 ≤ a.1)).take k.toNat

/-- The normalization stage of `BM25Index.search`:
`normalized_score = exp(-score_normalization_factor * raw_score)`. -/
noncomputable def bm25_normalize (factor : ℚ) (topk : List (ℝ × Doc)) :
    List (Doc × ℝ) :=
  topk.map (fun p => (p.2, Real.exp (-(((factor : ℚ) : ℝ) * p.1))))

/-- `BM25Index.search`, guard for guard in source order: empty corpus, `k`,
lazy rebuild (written out where the source binds the rebuilt `self`), zero
average length, empty query tokenization; then raw scores are sorted
descending (stable), truncated to `k`, mapped through `exp(-factor * raw)`,
and re-sorted ascending by the normalized score. -/
noncomputable def bm25_search (tok : String → List String) (st : BM25State)
    (query : String) (k : Int) (factor : ℚ) : Option (List (Doc × ℝ)) :=
  if st.documents.isEmpty then some []
  else if k ≤ 0 then none
  else if (if st.index_built then st else build_index st).avg_doc_len = 0 then some []
  else if (tok query).isEmpty then some []
  else some ((bm25_normalize factor
    (bm25_topk (if st.index_built then st else build_index st) (tok query) k)).insertionSort
      (fun a b => a.2 ≤ b.2))

/-! ### Local order instances for the sort comparators -/

instance descFstTotal : IsTotal (ℝ × Doc) (fun a b => b.1 ≤ a.1) :=
  ⟨fun a b => (le_total b.1 a.1).imp id id⟩

instance descFstTrans : IsTrans (ℝ × Doc) (fun a b => b.1 ≤ a.1) :=
  ⟨fun _ _ _ h1 h2 => le_trans h2 h1⟩

instance ascSndTotal : IsTotal (Doc × ℝ) (fun a b => a.2 ≤ b.2) :=
  ⟨fun a b => le_total a.2 b.2⟩

instance ascSndTrans : IsTrans (Doc × ℝ) (fun a b => a.2 ≤ b.2) :=
  ⟨fun _ _ _ h1 h2 => le_trans h1 h2⟩

instance descSndRatTotal : IsTotal (Doc × ℚ) (fun a b => b.2 ≤ a.2) :=
  ⟨fun a b => (le_total b.2 a.2).imp id id⟩

instance descSndRatTrans : IsTrans (Doc × ℚ) (fun a b => b.2 ≤ a.2) :=
  ⟨fun _ _ _ h1 h2 => le_trans h2 h1⟩

/-- The token sequence an index derives from a document (used to state the
correspondence between `self.documents` and `self._corpus_tokens`). -/
def docTokens (tok : String → List String) (d : Doc) : List String :=
  match d.get contentKey with
  | some (PyVal.pstr s) => tok s
  | _ => []

/-- Well-formedness of a `BM25Index` state, as maintained by `add_document`:
every stored document has string content, and the token/length caches are the
tokenizations of the stored documents. -/
def bm25_wf (tok : String → List String) (st : BM25State) : Prop :=
  (∀ d ∈ st.documents, d.strContent = true)
  ∧ st.corpus_tokens = st.documents.map (docTokens tok)
  ∧ st.doc_len = st.corpus_tokens.map List.length

/-! ## Rank-fusion retriever (`Retriever`)

Underlying indexes are abstracted as their `search` functions
(`String → Int → List (Doc × S)` for an arbitrary per-index score type `S`;
fusion drops the per-index scores).  The Python dict `doc_ranks`, keyed by
`id(doc)`, becomes an insertion-ordered association list keyed by `oid`; the
per-document `ranks` array (initialized to `float("inf")`) becomes
`List (Option Nat)` with `none` for infinity. -/

/-- One iteration of the `doc_ranks` loop body: create the entry (first doc
object encountered for this `oid` is kept) if absent, then set slot `idx` to
the 1-based rank. -/
def addRank (n idx rank : Nat) (d : Doc)
    (tbl : List (Nat × Doc × List (Option Nat))) :
    List (Nat × Doc × List (Option Nat)) :=
  if tbl.any (fun e => e.1 = d.oid) then
    tbl.map (fun e =>
      if e.1 = d.oid then (e.1, e.2.1, e.2.2.set idx (some (rank + 1))) else e)
  else tbl ++ [(d.oid, d, (List.replicate n (none : Option Nat)).set idx (some (rank + 1)))]

/-- The inner `for rank, (doc, _) in enumerate(results)` loop, starting at
rank `rank`. -/
def addRanksFrom (n idx : Nat) :
    List (Nat × Doc × List (Option Nat)) → Nat → List Doc →
    List (Nat × Doc × List (Option Nat))
  | tbl, _, [] => tbl
  | tbl, rank, d :: rest => addRanksFrom n idx (addRank n idx rank d tbl) (rank + 1) rest

/-- The outer `for idx, results in enumerate(all_results)` loop, starting at
index slot `idx`. -/
def buildRanksFrom (n : Nat) :
    List (Nat × Doc × List (Option Nat)) → Nat → List (List Doc) →
    List (Nat × Doc × List (Option Nat))
  | tbl, _, [] => tbl
  | tbl, idx, docs :: rest => buildRanksFrom n (addRanksFrom n idx tbl 0 docs) (idx + 1) rest

/-- `calc_rrf_score`: sum `1/(k_rrf + r)` over the finite ranks. -/
def calc_rrf_score (k_rrf : Int) (ranks : List (Option Nat)) : ℚ :=
  (ranks.map (fun r =>
    match r with
    | none => (0 : ℚ)
    | some rk => 1 / ((k_rrf : ℚ) + (rk : ℚ)))).sum

/-- The fusion stage of `Retriever.search` on the per-index ranked document
lists: build the rank table, score, keep positive scores, sort descending
(stable), truncate to `k`. -/
def rrf_fuse (k_rrf k : Int) (allResults : List (List Doc)) : List (Doc × ℚ) :=
  ((((buildRanksFrom allResults.length [] 0 allResults).map
      (fun e => (e.2.1, calc_rrf_score k_rrf e.2.2))).filter
        (fun p => 0 < p.2)).insertionSort (fun a b => b.2 ≤ a.2)).take k.toNat

/-- `doc["id"] = "".join(random.choices(...))` when `"id"` is absent; the
random draw is abstracted as a supply `gen` consumed at counter `cnt`. -/
def ensure_id (gen : Nat → String) (cnt : Nat) (d : Doc) : Doc × Nat :=
  if d.get idKey = none then
    ({ d with fields := d.fields ++ [(idKey, PyVal.pstr (gen cnt))] }, cnt + 1)
  else (d, cnt)

/-- The `for doc in docs_only: if "id" not in doc: ...` assignment loop. -/
def assign_ids (gen : Nat → String) : Nat → List Doc → List Doc
  | _, [] => []
  | cnt, d :: rest =>
    let p := ensure_id gen cnt d
    p.1 :: assign_ids gen p.2 rest

/-- `doc_lookup = {doc["id"]: doc for doc in docs_only}`: an
insertion-ordered dict build in which a later binding of the same key
overwrites the earlier one. -/
def dict_of_docs (docs : List Doc) : List (PyVal × Doc) :=
  docs.foldl (fun acc d =>
    match d.get idKey with
    | none => acc
    | some v =>
      if acc.any (fun p => p.1 = v) then
        acc.map (fun p => if p.1 = v then (v, d) else p)
      else acc ++ [(v, d)]) []

def plookup (l : List (PyVal × Doc)) (v : PyVal) : Option Doc :=
  (l.find? (fun p => p.1 = v)).map (fun p => p.2)

/-- `original_scores = {id(doc): score for doc, score in result}` (oids in
`result` are distinct, coming from the `doc_ranks` table; later wins
regardless, as in a Python dict comprehension). -/
def oid_scores (result : List (Doc × ℚ)) : List (Nat × ℚ) :=
  result.foldl (fun acc p =>
    if acc.any (fun q => q.1 = p.1.oid) then
      acc.map (fun q => if q.1 = p.1.oid then (q.1, p.2) else q)
    else acc ++ [(p.1.oid, p.2)]) []

/-- `original_scores.get(id(doc), 0.0)`. -/
def oid_score_get (l : List (Nat × ℚ)) (o : Nat) : ℚ :=
  ((l.find? (fun p => p.1 = o)).map (fun p => p.2)).getD 0

/-- The reranker branch of `Retriever.search`: assign missing identifiers,
build the id-keyed lookup, call the reranker, and keep — in the reranker's
order — each returned identifier that matches a candidate, paired with the
candidate's original fusion score. -/
def rerank_step (gen : Nat → String) (rr : List Doc → String → Int → List String)
    (result : List (Doc × ℚ)) (query : String) (k : Int) : List (Doc × ℚ) :=
  (rr (assign_ids gen 0 (result.map Prod.fst)) query k).filterMap (fun s =>
    match plookup (dict_of_docs (assign_ids gen 0 (result.map Prod.fst)))
        (PyVal.pstr s) with
    | none => none
    | some d =>
      some (d, oid_score_get
        (oid_scores ((assign_ids gen 0 (result.map Prod.fst)).zip
          (result.map Prod.snd))) d.oid))

/-- `Retriever.search`: argument guards, query each index for `k * 5`
candidates, fuse, then optionally defer to the reranker. -/
def retriever_search {S : Type} (idxs : List (String → Int → List (Doc × S)))
    (rr : Option (List Doc → String → Int → List String)) (gen : Nat → String)
    (query : String) (k k_rrf : Int) : Option (List (Doc × ℚ)) :=
  if k ≤ 0 then none
  else if k_rrf < 0 then none
  else
    let allResults := idxs.map (fun f => (f query (k * 5)).map Prod.fst)
    let result := rrf_fuse k_rrf k allResults
    some (match rr with
          | none => result
          | some r => rerank_step gen r result query k)

/-! ## Spec-side description of Reciprocal Rank Fusion (for C2)

`spec_rank` is the 1-based-rank-minus-one (i.e. the position) of the document
with object id `o` in one index's result list; `spec_rrf_score` is the spec's
`Σ over indexes of 1/(k_rrf + rank)`, an absent document contributing 0. -/

def spec_rank (docs : List Doc) (o : Nat) : Option Nat :=
  docs.findIdx? (fun d0 => d0.oid = o)

def spec_rrf_contrib (k_rrf : Int) (docs : List Doc) (o : Nat) : ℚ :=
  match spec_rank docs o with
  | none => 0
  | some j => 1 / ((k_rrf : ℚ) + ((j + 1 : ℕ) : ℚ))

def spec_rrf_score (k_rrf : Int) (allResults : List (List Doc)) (o : Nat) : ℚ :=
  (allResults.map (fun docs => spec_rrf_contrib k_rrf docs o)).sum

/-- Lookup in the `doc_ranks` table by object id (dict access). -/
def tlookup (tbl : List (Nat × Doc × List (Option Nat))) (o : Nat) :
    Option (Doc × List (Option Nat)) :=
  (tbl.find? (fun e => e.1 = o)).map (fun e => e.2)

/-- The rank recorded in slot `i` of the table entry keyed `o` (`none` both
for a missing entry and for an untouched `inf` slot). -/
def slotM (tbl : List (Nat × Doc × List (Option Nat))) (o : Nat) (i : Nat) :
    Option Nat :=
  match tlookup tbl o with
  | none => none
  | some pr => pr.2.getD i none

theorem find?_map_of_key_fixed
    (g : (Nat × Doc × List (Option Nat)) → (Nat × Doc × List (Option Nat)))
    (hg : ∀ e, (g e).1 = e.1) (tbl : List (Nat × Doc × List (Option Nat)))
    (o : Nat) :
    (tbl.map g).find? (fun e => e.1 = o)
      = (tbl.find? (fun e => e.1 = o)).map g := by
  rw [List.find?_map]
  have : ((fun e : Nat × Doc × List (Option Nat) => decide (e.1 = o)) ∘ g)
      = (fun e : Nat × Doc × List (Option Nat) => decide (e.1 = o)) := by
    funext e
    simp [Function.comp, hg e]
  rw [this]

theorem tlookup_addRank (n idx rank : Nat) (d : Doc)
    (tbl : List (Nat × Doc × List (Option Nat))) (o : Nat) :
    tlookup (addRank n idx rank d tbl) o =
      if o = d.oid then
        match tlookup tbl d.oid with
        | some pr => some (pr.1, pr.2.set idx (some (rank + 1)))
        | none => some (d, (List.replicate n (none : Option Nat)).set idx (some (rank + 1)))
      else tlookup tbl o := by
  unfold addRank
  by_cases hany : tbl.any (fun e => e.1 = d.oid) = true
  · rw [if_pos hany]
    have h1 : (tbl.find? (fun e => e.1 = d.oid)).isSome := by
      rw [List.find?_isSome]
      rcases List.any_eq_true.mp hany with ⟨e, he, hp⟩
      exact ⟨e, he, hp⟩
    rcases Option.isSome_iff_exists.mp h1 with ⟨pr, hpr⟩
    unfold tlookup
    rw [find?_map_of_key_fixed _ (fun e => by by_cases h : e.1 = d.oid <;> simp [h]),
      hpr]
    have hkey : pr.1 = d.oid := by
      have h2 := List.find?_some hpr
      exact of_decide_eq_true h2
    by_cases ho : o = d.oid
    · rw [if_pos ho, ho, hpr]
      show some (if pr.1 = d.oid then
          (pr.1, pr.2.1, pr.2.2.set idx (some (rank + 1))) else pr).2 = _
      rw [if_pos hkey]
      rfl
    · rw [if_neg ho]
      cases hfo : tbl.find? (fun e => e.1 = o) with
      | none => simp
      | some e =>
        have hkey2 : e.1 = o := by
          have h2 := List.find?_some hfo
          exact of_decide_eq_true h2
        have hne : ¬ e.1 = d.oid := by rw [hkey2]; exact ho
        show some (if e.1 = d.oid then
            (e.1, e.2.1, e.2.2.set idx (some (rank + 1))) else e).2 = some e.2
        rw [if_neg hne]
  · rw [if_neg hany]
    have hnone : tbl.find? (fun e => e.1 = d.oid) = none := by
      rw [List.find?_eq_none]
      intro e he hp
      exact hany (List.any_eq_true.mpr ⟨e, he, hp⟩)
    unfold tlookup
    rw [List.find?_append]
    by_cases ho : o = d.oid
    · rw [if_pos ho, ho, hnone]
      simp
    · rw [if_neg ho]
      have hsing : ([((d.oid, d, (List.replicate n (none : Option Nat)).set idx
          (some (rank + 1))))].find? (fun e => e.1 = o)) = none := by
        rw [List.find?_eq_none]
        intro e he hp
        rw [List.mem_singleton.mp he] at hp
        exact ho (of_decide_eq_true hp).symm
      rw [hsing]
      simp

theorem getD_set_none (l : List (Option Nat)) (idx i : Nat) (v : Option Nat) :
    (l.set idx v).getD i none
      = if i = idx ∧ idx < l.length then v else l.getD i none := by
  by_cases h : i = idx
  · subst h
    by_cases hlt : i < l.length
    · simp [List.getElem?_set_self hlt, hlt]
    · rw [List.set_eq_of_length_le (le_of_not_lt hlt)]
      simp [hlt]
  · have h2 : idx ≠ i := fun he => h he.symm
    simp [List.getElem?_set_ne h2, h]

theorem addRank_len (n idx rank : Nat) (d : Doc)
    (tbl : List (Nat × Doc × List (Option Nat)))
    (hlen : ∀ e ∈ tbl, e.2.2.length = n) :
    ∀ e ∈ addRank n idx rank d tbl, e.2.2.length = n := by
  intro e he
  unfold addRank at he
  split at he
  · rcases List.mem_map.mp he with ⟨e0, he0, hge⟩
    by_cases h : e0.1 = d.oid
    · rw [if_pos h] at hge
      rw [← hge]
      simpa using hlen e0 he0
    · rw [if_neg h] at hge
      rw [← hge]
      exact hlen e0 he0
  · rcases List.mem_append.mp he with h | h
    · exact hlen e h
    · rw [List.mem_singleton.mp h]
      simp

theorem addRank_oid_inv (n idx rank : Nat) (d : Doc)
    (tbl : List (Nat × Doc × List (Option Nat)))
    (hinv : ∀ e ∈ tbl, e.2.1.oid = e.1) :
    ∀ e ∈ addRank n idx rank d tbl, e.2.1.oid = e.1 := by
  intro e he
  unfold addRank at he
  split at he
  · rcases List.mem_map.mp he with ⟨e0, he0, hge⟩
    by_cases h : e0.1 = d.oid
    · rw [if_pos h] at hge
      rw [← hge]
      exact hinv e0 he0
    · rw [if_neg h] at hge
      rw [← hge]
      exact hinv e0 he0
  · rcases List.mem_append.mp he with h | h
    · exact hinv e h
    · rw [List.mem_singleton.mp h]

theorem addRank_keys_nodup (n idx rank : Nat) (d : Doc)
    (tbl : List (Nat × Doc × List (Option Nat)))
    (hnd : (tbl.map (fun e => e.1)).Nodup) :
    ((addRank n idx rank d tbl).map (fun e => e.1)).Nodup := by
  unfold addRank
  split
  · have : (tbl.map (fun e =>
        if e.1 = d.oid then (e.1, e.2.1, e.2.2.set idx (some (rank + 1))) else e)).map
          (fun e => e.1) = tbl.map (fun e => e.1) := by
      rw [List.map_map]
      apply List.map_congr_left
      intro e _
      by_cases h : e.1 = d.oid <;> simp [Function.comp, h]
    rw [this]
    exact hnd
  · rw [List.map_append]
    rw [List.nodup_append]
    refine ⟨hnd, by simp, ?_⟩
    intro a ha hb
    rw [List.map_singleton, List.mem_singleton] at hb
    subst hb
    rcases List.mem_map.mp ha with ⟨e, he, hke⟩
    rename_i hany
    exact hany (List.any_eq_true.mpr ⟨e, he, by simp [hke]⟩)

theorem slotM_addRank (n idx rank : Nat) (d : Doc)
    (tbl : List (Nat × Doc × List (Option Nat))) (o i : Nat)
    (hidx : idx < n) (hlen : ∀ e ∈ tbl, e.2.2.length = n) :
    slotM (addRank n idx rank d tbl) o i =
      if o = d.oid ∧ i = idx then some (rank + 1) else slotM tbl o i := by
  unfold slotM
  rw [tlookup_addRank]
  by_cases ho : o = d.oid
  · rw [if_pos ho]
    cases hl : tlookup tbl d.oid with
    | some pr =>
      have hprlen : pr.2.length = n := by
        unfold tlookup at hl
        cases hf : tbl.find? (fun e => e.1 = d.oid) with
        | none => rw [hf] at hl; exact absurd hl (by simp)
        | some e =>
          rw [hf] at hl
          have he : e ∈ tbl := List.mem_of_find?_eq_some hf
          have : e.2 = pr := by simpa using hl
          rw [← this]
          exact hlen e he
      show (pr.2.set idx (some (rank + 1))).getD i none = _
      rw [getD_set_none]
      rw [hprlen]
      by_cases hi : i = idx
      · rw [if_pos ⟨hi, hidx⟩, if_pos ⟨ho, hi⟩]
      · rw [if_neg (fun hb => hi hb.1), if_neg (fun hb => hi hb.2)]
        rw [ho, hl]
    | none =>
      show (((List.replicate n (none : Option Nat)).set idx (some (rank + 1))).getD i none) = _
      rw [getD_set_none]
      rw [List.length_replicate]
      by_cases hi : i = idx
      · rw [if_pos ⟨hi, hidx⟩, if_pos ⟨ho, hi⟩]
      · rw [if_neg (fun hb => hi hb.1), if_neg (fun hb => hi hb.2)]
        rw [ho, hl]
        simp only [List.getD_eq_getElem?_getD, List.getElem?_replicate]
        split <;> rfl
  · rw [if_neg ho, if_neg (fun hb => ho hb.1)]

theorem addRanksFrom_len (n idx : Nat) (docs : List Doc) :
    ∀ (tbl : List (Nat × Doc × List (Option Nat))) (r0 : Nat),
      (∀ e ∈ tbl, e.2.2.length = n) →
      ∀ e ∈ addRanksFrom n idx tbl r0 docs, e.2.2.length = n := by
  induction docs with
  | nil => intro tbl r0 h e he; exact h e he
  | cons d rest ih =>
    intro tbl r0 h e he
    exact ih (addRank n idx r0 d tbl) (r0 + 1) (addRank_len n idx r0 d tbl h) e he

theorem addRanksFrom_oid (n idx : Nat) (docs : List Doc) :
    ∀ (tbl : List (Nat × Doc × List (Option Nat))) (r0 : Nat),
      (∀ e ∈ tbl, e.2.1.oid = e.1) →
      ∀ e ∈ addRanksFrom n idx tbl r0 docs, e.2.1.oid = e.1 := by
  induction docs with
  | nil => intro tbl r0 h e he; exact h e he
  | cons d rest ih =>
    intro tbl r0 h e he
    exact ih (addRank n idx r0 d tbl) (r0 + 1) (addRank_oid_inv n idx r0 d tbl h) e he

theorem addRanksFrom_keys_nodup (n idx : Nat) (docs : List Doc) :
    ∀ (tbl : List (Nat × Doc × List (Option Nat))) (r0 : Nat),
      ((tbl.map (fun e => e.1)).Nodup) →
      ((addRanksFrom n idx tbl r0 docs).map (fun e => e.1)).Nodup := by
  induction docs with
  | nil => intro tbl r0 h; exact h
  | cons d rest ih =>
    intro tbl r0 h
    exact ih (addRank n idx r0 d tbl) (r0 + 1) (addRank_keys_nodup n idx r0 d tbl h)

theorem slotM_addRanksFrom (n idx : Nat) (docs : List Doc) (hidx : idx < n) :
    ∀ (tbl : List (Nat × Doc × List (Option Nat))) (r0 o i : Nat),
      (∀ e ∈ tbl, e.2.2.length = n) → (docs.map Doc.oid).Nodup →
      slotM (addRanksFrom n idx tbl r0 docs) o i =
        match (if i = idx then docs.findIdx? (fun d0 => d0.oid = o) else none) with
        | some j => some (r0 + j + 1)
        | none => slotM tbl o i := by
  induction docs with
  | nil =>
    intro tbl r0 o i _ _
    show slotM tbl o i = _
    by_cases hi : i = idx <;> simp [hi]
  | cons d rest ih =>
    intro tbl r0 o i hlen hnd
    rw [List.map_cons] at hnd
    obtain ⟨hdnotin, hndr⟩ := List.nodup_cons.mp hnd
    show slotM (addRanksFrom n idx (addRank n idx r0 d tbl) (r0 + 1) rest) o i = _
    rw [ih (addRank n idx r0 d tbl) (r0 + 1) o i (addRank_len n idx r0 d tbl hlen) hndr]
    by_cases hi : i = idx
    · rw [if_pos hi, if_pos hi]
      by_cases ho : o = d.oid
      · have hrest : rest.findIdx? (fun d0 => d0.oid = o) = none := by
          rw [List.findIdx?_eq_none_iff]
          intro x hx
          by_contra hpx
          rw [Bool.not_eq_false] at hpx
          have hxo : x.oid = o := of_decide_eq_true hpx
          exact hdnotin (List.mem_map.mpr ⟨x, hx, by rw [hxo]; exact ho⟩)
        have hcons : (d :: rest).findIdx? (fun d0 => d0.oid = o) = some 0 := by
          rw [List.findIdx?_cons, if_pos (by simp [ho])]
        rw [hrest, hcons]
        rw [slotM_addRank n idx r0 d tbl o i hidx hlen, if_pos ⟨ho, hi⟩]
      · have hcons : (d :: rest).findIdx? (fun d0 => d0.oid = o)
            = (rest.findIdx? (fun d0 => d0.oid = o)).map (fun j => j + 1) := by
          rw [List.findIdx?_cons,
            if_neg (by simp; intro hh; exact absurd hh.symm ho)]
          exact List.findIdx?_succ
        rw [hcons]
        cases hr : rest.findIdx? (fun d0 => d0.oid = o) with
        | some j =>
          show some (r0 + 1 + j + 1) = some (r0 + (j + 1) + 1)
          congr 1
          omega
        | none =>
          show slotM (addRank n idx r0 d tbl) o i = slotM tbl o i
          rw [slotM_addRank n idx r0 d tbl o i hidx hlen,
            if_neg (fun hb => ho hb.1)]
    · rw [if_neg hi, if_neg hi]
      show slotM (addRank n idx r0 d tbl) o i = slotM tbl o i
      rw [slotM_addRank n idx r0 d tbl o i hidx hlen,
        if_neg (fun hb => hi hb.2)]

theorem buildRanksFrom_len (n : Nat) (Ls : List (List Doc)) :
    ∀ (tbl : List (Nat × Doc × List (Option Nat))) (idx : Nat),
      (∀ e ∈ tbl, e.2.2.length = n) →
      ∀ e ∈ buildRanksFrom n tbl idx Ls, e.2.2.length = n := by
  induction Ls with
  | nil => intro tbl idx h e he; exact h e he
  | cons docs rest ih =>
    intro tbl idx h e he
    exact ih (addRanksFrom n idx tbl 0 docs) (idx + 1)
      (addRanksFrom_len n idx docs tbl 0 h) e he

theorem buildRanksFrom_oid (n : Nat) (Ls : List (List Doc)) :
    ∀ (tbl : List (Nat × Doc × List (Option Nat))) (idx : Nat),
      (∀ e ∈ tbl, e.2.1.oid = e.1) →
      ∀ e ∈ buildRanksFrom n tbl idx Ls, e.2.1.oid = e.1 := by
  induction Ls with
  | nil => intro tbl idx h e he; exact h e he
  | cons docs rest ih =>
    intro tbl idx h e he
    exact ih (addRanksFrom n idx tbl 0 docs) (idx + 1)
      (addRanksFrom_oid n idx docs tbl 0 h) e he

theorem buildRanksFrom_keys_nodup (n : Nat) (Ls : List (List Doc)) :
    ∀ (tbl : List (Nat × Doc × List (Option Nat))) (idx : Nat),
      ((tbl.map (fun e => e.1)).Nodup) →
      ((buildRanksFrom n tbl idx Ls).map (fun e => e.1)).Nodup := by
  induction Ls with
  | nil => intro tbl idx h; exact h
  | cons docs rest ih =>
    intro tbl idx h
    exact ih (addRanksFrom n idx tbl 0 docs) (idx + 1)
      (addRanksFrom_keys_nodup n idx docs tbl 0 h)

theorem slotM_buildRanksFrom (n : Nat) (Ls : List (List Doc)) :
    ∀ (tbl : List (Nat × Doc × List (Option Nat))) (idx o i : Nat),
      (∀ l ∈ Ls, (l.map Doc.oid).Nodup) → idx + Ls.length ≤ n →
      (∀ e ∈ tbl, e.2.2.length = n) →
      slotM (buildRanksFrom n tbl idx Ls) o i =
        match (if idx ≤ i ∧ i < idx + Ls.length
            then (Ls.getD (i - idx) []).findIdx? (fun d0 => d0.oid = o)
            else none) with
        | some j => some (j + 1)
        | none => slotM tbl o i := by
  induction Ls with
  | nil =>
    intro tbl idx o i _ _ _
    show slotM tbl o i = _
    simp only [List.length_nil]
    have h0 : ¬ (idx ≤ i ∧ i < idx + 0) := by omega
    rw [if_neg h0]
  | cons docs rest ih =>
    intro tbl idx o i hnd hle hlen
    obtain hnd_docs := hnd docs (by simp)
    have hnd_rest : ∀ l ∈ rest, (l.map Doc.oid).Nodup :=
      fun l hl => hnd l (List.mem_cons_of_mem _ hl)
    have hidx : idx < n := by
      have := hle
      simp only [List.length_cons] at this
      omega
    show slotM (buildRanksFrom n (addRanksFrom n idx tbl 0 docs) (idx + 1) rest) o i = _
    rw [ih (addRanksFrom n idx tbl 0 docs) (idx + 1) o i hnd_rest
      (by simp only [List.length_cons] at hle; omega)
      (addRanksFrom_len n idx docs tbl 0 hlen)]
    by_cases h1 : (idx + 1 ≤ i ∧ i < idx + 1 + rest.length)
    · rw [if_pos h1]
      have h2 : idx ≤ i ∧ i < idx + (docs :: rest).length := by
        simp only [List.length_cons]
        omega
      rw [if_pos h2]
      have hgetD : (docs :: rest).getD (i - idx) [] = rest.getD (i - (idx + 1)) [] := by
        have h3 : i - idx = (i - (idx + 1)) + 1 := by omega
        rw [h3]
        rfl
      rw [hgetD]
      cases hr : (rest.getD (i - (idx + 1)) []).findIdx? (fun d0 => d0.oid = o) with
      | some j => rfl
      | none =>
        show slotM (addRanksFrom n idx tbl 0 docs) o i = slotM tbl o i
        rw [slotM_addRanksFrom n idx docs hidx tbl 0 o i hlen hnd_docs,
          if_neg (by omega : ¬ i = idx)]
    · rw [if_neg h1]
      rw [slotM_addRanksFrom n idx docs hidx tbl 0 o i hlen hnd_docs]
      by_cases hi : i = idx
      · rw [if_pos hi]
        have h2 : idx ≤ i ∧ i < idx + (docs :: rest).length := by
          simp only [List.length_cons]
          omega
        rw [if_pos h2]
        have hgetD : (docs :: rest).getD (i - idx) [] = docs := by
          have h3 : i - idx = 0 := by omega
          rw [h3]
          rfl
        rw [hgetD]
        cases hr : docs.findIdx? (fun d0 => d0.oid = o) with
        | some j =>
          show some (0 + j + 1) = some (j + 1)
          congr 1
          omega
        | none => rfl
      · rw [if_neg hi]
        have h2 : ¬ (idx ≤ i ∧ i < idx + (docs :: rest).length) := by
          simp only [List.length_cons]
          omega
        rw [if_neg h2]

theorem tlookup_of_mem (tbl : List (Nat × Doc × List (Option Nat)))
    (hnd : (tbl.map (fun e => e.1)).Nodup)
    (e : Nat × Doc × List (Option Nat)) (he : e ∈ tbl) :
    tlookup tbl e.1 = some e.2 := by
  induction tbl with
  | nil => simp at he
  | cons x rest ih =>
    rw [List.map_cons] at hnd
    obtain ⟨hx, hrest⟩ := List.nodup_cons.mp hnd
    rcases List.mem_cons.mp he with h | h
    · subst h
      unfold tlookup
      rw [List.find?_cons_of_pos _ (by simp)]
      rfl
    · unfold tlookup
      have hne : ¬ (x.1 = e.1) := by
        intro hx1
        apply hx
        rw [hx1]
        exact List.mem_map.mpr ⟨e, h, rfl⟩
      rw [List.find?_cons_of_neg _ (by simp [hne])]
      exact ih hrest h

/-! ## Sequences of insertions (for the dimension invariant) -/

/-- A sequence of `add_vector` calls, failing as soon as one fails. -/
def add_vector_seq (st : VectorIndexState) (ops : List (List ℚ × Doc)) :
    Option VectorIndexState :=
  ops.foldlM (fun s p => add_vector s p.1 p.2) st

/-! ## Dict-build lookup lemmas (for C5 and C10)

`dict_of_docs` and `oid_scores` are Python dict builds: a later binding of a
key overwrites the earlier one, so a lookup returns the value of the LAST
element carrying the key. -/

theorem find?_map_keyed {κ ν : Type} [DecidableEq κ] (g : κ × ν → κ × ν)
    (hg : ∀ e, (g e).1 = e.1) (l : List (κ × ν)) (key : κ) :
    (l.map g).find? (fun e => e.1 = key) = (l.find? (fun e => e.1 = key)).map g := by
  rw [List.find?_map]
  have hfe : ((fun e : κ × ν => decide (e.1 = key)) ∘ g)
      = (fun e : κ × ν => decide (e.1 = key)) := by
    funext e
    simp [Function.comp, hg e]
  rw [hfe]

theorem reverse_find?_of_nodup {α β : Type} [DecidableEq β] (f : α → β) (v : β) :
    ∀ (l : List α), ((l.map f).Nodup) →
      l.reverse.find? (fun x => f x = v) = l.find? (fun x => f x = v) := by
  intro l
  induction l with
  | nil => intro _; rfl
  | cons a rest ih =>
    intro hnd
    rw [List.map_cons] at hnd
    obtain ⟨hna, hndr⟩ := List.nodup_cons.mp hnd
    rw [List.reverse_cons, List.find?_append, ih hndr]
    by_cases hp : f a = v
    · have hrest : rest.find? (fun x => f x = v) = none := by
        rw [List.find?_eq_none]
        intro x hx hpx
        have hfx : f x = v := of_decide_eq_true hpx
        exact hna (List.mem_map.mpr ⟨x, hx, by rw [hfx, ← hp]⟩)
      rw [hrest, List.find?_cons_of_pos _ (by simp [hp]),
        List.find?_cons_of_pos _ (by simp [hp])]
      rfl
    · rw [List.find?_cons_of_neg _ (by simp [hp]),
        List.find?_cons_of_neg _ (by simp [hp]), List.find?_nil, Option.or_none]

theorem plookup_step (acc : List (PyVal × Doc)) (d : Doc) (v : PyVal) :
    plookup (match d.get idKey with
      | none => acc
      | some w =>
        if acc.any (fun p => p.1 = w) then
          acc.map (fun p => if p.1 = w then (w, d) else p)
        else acc ++ [(w, d)]) v
      = if d.get idKey = some v then some d else plookup acc v := by
  cases hw : d.get idKey with
  | none => rw [if_neg (by simp)]
  | some w =>
    by_cases hwv : w = v
    · subst hwv
      rw [if_pos rfl]
      show plookup (if acc.any (fun p => p.1 = w) then
          acc.map (fun p => if p.1 = w then (w, d) else p)
        else acc ++ [(w, d)]) w = some d
      by_cases hany : acc.any (fun p => p.1 = w) = true
      · rw [if_pos hany]
        unfold plookup
        rw [find?_map_keyed _ (fun e => by by_cases h : e.1 = w <;> simp [h])]
        have h1 : (acc.find? (fun p => p.1 = w)).isSome := by
          rw [List.find?_isSome]
          rcases List.any_eq_true.mp hany with ⟨e, he, hp⟩
          exact ⟨e, he, hp⟩
        rcases Option.isSome_iff_exists.mp h1 with ⟨pr, hpr⟩
        rw [hpr]
        have hkey : pr.1 = w := by
          have h2 := List.find?_some hpr
          exact of_decide_eq_true h2
        show some (if pr.1 = w then (w, d) else pr).2 = some d
        rw [if_pos hkey]
      · rw [if_neg hany]
        unfold plookup
        rw [List.find?_append]
        have hnone : acc.find? (fun p => p.1 = w) = none := by
          rw [List.find?_eq_none]
          intro e he hp
          exact hany (List.any_eq_true.mpr ⟨e, he, hp⟩)
        rw [hnone]
        simp
    · rw [if_neg (by simp [hwv])]
      show plookup (if acc.any (fun p => p.1 = w) then
          acc.map (fun p => if p.1 = w then (w, d) else p)
        else acc ++ [(w, d)]) v = plookup acc v
      by_cases hany : acc.any (fun p => p.1 = w) = true
      · rw [if_pos hany]
        unfold plookup
        rw [find?_map_keyed _ (fun e => by by_cases h : e.1 = w <;> simp [h])]
        cases hfv : acc.find? (fun p => p.1 = v) with
        | none => rfl
        | some e =>
          have hk : e.1 = v := by
            have h2 := List.find?_some hfv
            exact of_decide_eq_true h2
          show some (if e.1 = w then (w, d) else e).2 = some e.2
          rw [if_neg (by rw [hk]; exact fun h => hwv h.symm)]
      · rw [if_neg hany]
        unfold plookup
        rw [List.find?_append]
        have hsing : ([((w, d) : PyVal × Doc)].find? (fun p => p.1 = v)) = none := by
          rw [List.find?_eq_none]
          intro e he hp
          rw [List.mem_singleton.mp he] at hp
          exact hwv (of_decide_eq_true hp)
        rw [hsing, Option.or_none]

theorem plookup_dict_fold (v : PyVal) :
    ∀ (docs : List Doc) (acc : List (PyVal × Doc)),
      plookup (docs.foldl (fun acc0 d =>
        match d.get idKey with
        | none => acc0
        | some w =>
          if acc0.any (fun p => p.1 = w) then
            acc0.map (fun p => if p.1 = w then (w, d) else p)
          else acc0 ++ [(w, d)]) acc) v
      = (docs.reverse.find? (fun d0 => d0.get idKey = some v)).or (plookup acc v) := by
  intro docs
  induction docs with
  | nil => intro acc; simp
  | cons d rest ih =>
    intro acc
    rw [List.foldl_cons, ih, List.reverse_cons, List.find?_append, Option.or_assoc]
    congr 1
    rw [plookup_step acc d v]
    by_cases hp : d.get idKey = some v
    · rw [if_pos hp, List.find?_cons_of_pos _ (by simp [hp])]
      rfl
    · rw [if_neg hp, List.find?_cons_of_neg _ (by simp [hp]), List.find?_nil]
      rfl

theorem plookup_dict_of_docs (docs : List Doc) (v : PyVal) :
    plookup (dict_of_docs docs) v
      = docs.reverse.find? (fun d0 => d0.get idKey = some v) := by
  unfold dict_of_docs
  rw [plookup_dict_fold v docs []]
  rw [show plookup [] v = none from rfl, Option.or_none]

theorem scores_step (acc : List (Nat × ℚ)) (p : Doc × ℚ) (o : Nat) :
    ((if acc.any (fun q => q.1 = p.1.oid) then
        acc.map (fun q => if q.1 = p.1.oid then (q.1, p.2) else q)
      else acc ++ [(p.1.oid, p.2)]).find? (fun q => q.1 = o)).map Prod.snd
      = if p.1.oid = o then some p.2
        else (acc.find? (fun q => q.1 = o)).map Prod.snd := by
  by_cases ho : p.1.oid = o
  · rw [if_pos ho]
    by_cases hany : acc.any (fun q => q.1 = p.1.oid) = true
    · rw [if_pos hany]
      rw [find?_map_keyed _ (fun e => by by_cases h : e.1 = p.1.oid <;> simp [h])]
      have h1 : (acc.find? (fun q => q.1 = o)).isSome := by
        rw [List.find?_isSome]
        rcases List.any_eq_true.mp hany with ⟨e, he, hp⟩
        refine ⟨e, he, ?_⟩
        rw [← ho]
        exact hp
      rcases Option.isSome_iff_exists.mp h1 with ⟨pr, hpr⟩
      rw [← ho] at hpr ⊢
      rw [hpr]
      have hkey : pr.1 = p.1.oid := by
        have h2 := List.find?_some hpr
        exact of_decide_eq_true h2
      show some (if pr.1 = p.1.oid then (pr.1, p.2) else pr).2 = some p.2
      rw [if_pos hkey]
    · rw [if_neg hany]
      rw [List.find?_append]
      have hnone : acc.find? (fun q => q.1 = o) = none := by
        rw [List.find?_eq_none]
        intro e he hp
        apply hany
        refine List.any_eq_true.mpr ⟨e, he, ?_⟩
        rw [ho]
        exact hp
      rw [hnone]
      have hsing : ([((p.1.oid, p.2) : Nat × ℚ)].find? (fun q => q.1 = o))
          = some (p.1.oid, p.2) := by
        rw [List.find?_cons_of_pos _ (by simp [ho])]
      rw [hsing]
      rfl
  · rw [if_neg ho]
    by_cases hany : acc.any (fun q => q.1 = p.1.oid) = true
    · rw [if_pos hany]
      rw [find?_map_keyed _ (fun e => by by_cases h : e.1 = p.1.oid <;> simp [h])]
      cases hfv : acc.find? (fun q => q.1 = o) with
      | none => rfl
      | some e =>
        have hk : e.1 = o := by
          have h2 := List.find?_some hfv
          exact of_decide_eq_true h2
        show some (if e.1 = p.1.oid then (e.1, p.2) else e).2 = some e.2
        rw [if_neg (by rw [hk]; exact fun h => ho h.symm)]
    · rw [if_neg hany]
      rw [List.find?_append]
      cases hfv : acc.find? (fun q => q.1 = o) with
      | some e => rfl
      | none =>
        have hsing : ([((p.1.oid, p.2) : Nat × ℚ)].find? (fun q => q.1 = o)) = none := by
          rw [List.find?_cons_of_neg _ (by simp [ho]), List.find?_nil]
        rw [hsing]
        rfl

theorem option_map_or {α β : Type} (f : α → β) (a b : Option α) :
    (a.or b).map f = (a.map f).or (b.map f) := by
  cases a <;> rfl

theorem scores_fold (o : Nat) :
    ∀ (result : List (Doc × ℚ)) (acc : List (Nat × ℚ)),
      ((result.foldl (fun acc0 p =>
        if acc0.any (fun q => q.1 = p.1.oid) then
          acc0.map (fun q => if q.1 = p.1.oid then (q.1, p.2) else q)
        else acc0 ++ [(p.1.oid, p.2)]) acc).find? (fun q => q.1 = o)).map Prod.snd
      = ((result.reverse.find? (fun p => p.1.oid = o)).map Prod.snd).or
          ((acc.find? (fun q => q.1 = o)).map Prod.snd) := by
  intro result
  induction result with
  | nil => intro acc; simp
  | cons p rest ih =>
    intro acc
    rw [List.foldl_cons, ih, List.reverse_cons, List.find?_append, option_map_or,
      Option.or_assoc]
    congr 1
    rw [scores_step acc p o]
    by_cases hp : p.1.oid = o
    · rw [if_pos hp, List.find?_cons_of_pos _ (by simp [hp])]
      rfl
    · rw [if_neg hp, List.find?_cons_of_neg _ (by simp [hp]), List.find?_nil]
      rfl

theorem oid_score_get_eq (result : List (Doc × ℚ)) (o : Nat) :
    oid_score_get (oid_scores result) o
      = ((result.reverse.find? (fun p => p.1.oid = o)).map Prod.snd).getD 0 := by
  unfold oid_score_get oid_scores
  rw [scores_fold o result []]
  rw [show ((([] : List (Nat × ℚ)).find? (fun q => q.1 = o)).map Prod.snd)
    = none from rfl, Option.or_none]

/-! # Claims -/

/-! ## C7 — document content validation -/

theorem strContent_false_iff (d : Doc) :
    d.strContent = false ↔ d.contentStr = none := by
  unfold Doc.strContent Doc.contentStr
  cases h : d.get contentKey with
  | none => simp
  | some v => cases v <;> simp

theorem bm25_add_document_none_iff (tok : String → List String) (st : BM25State)
    (d : Doc) : bm25_add_document tok st d = none ↔ d.strContent = false := by
  unfold bm25_add_document Doc.strContent
  cases h : d.get contentKey with
  | none => simp
  | some v => cases v <;> simp

theorem bm25_fold_bad (tok : String → List String) :
    ∀ (docs : List Doc) (st : BM25State), (∃ d0 ∈ docs, d0.strContent = false) →
      docs.foldlM (fun s d => bm25_add_document tok s d) st = none := by
  intro docs
  induction docs with
  | nil => intro st h; simp at h
  | cons d0 rest ih =>
    intro st h
    rw [List.foldlM_cons]
    rcases h with ⟨d1, hmem, hbad⟩
    rcases List.mem_cons.mp hmem with h1 | h1
    · subst h1
      rw [(bm25_add_document_none_iff tok st d1).mpr hbad]
      rfl
    · cases hadd : bm25_add_document tok st d0 with
      | none => rfl
      | some s1 => exact ih s1 ⟨d1, h1, hbad⟩

theorem bm25_fold_good (tok : String → List String) :
    ∀ (docs : List Doc) (st st' : BM25State),
      docs.foldlM (fun s d => bm25_add_document tok s d) st = some st' →
      ∀ d0 ∈ docs, d0.strContent = true := by
  intro docs
  induction docs with
  | nil => intro st st' _ d0 h; simp at h
  | cons d1 rest ih =>
    intro st st' hf d0 hmem
    rw [List.foldlM_cons] at hf
    cases hadd : bm25_add_document tok st d1 with
    | none => rw [hadd] at hf; exact absurd hf (by simp)
    | some s1 =>
      rw [hadd] at hf
      rcases List.mem_cons.mp hmem with h1 | h1
      · subst h1
        by_contra hbad
        rw [Bool.not_eq_true] at hbad
        rw [(bm25_add_document_none_iff tok st d0).mpr hbad] at hadd
        exact absurd hadd (by simp)
      · exact ih s1 st' hf d0 h1

theorem mapM_contentStr_bad :
    ∀ (docs : List Doc), (∃ d0 ∈ docs, d0.strContent = false) →
      docs.mapM Doc.contentStr = none := by
  intro docs
  induction docs with
  | nil => intro h; simp at h
  | cons d1 rest ih =>
    intro h
    rw [List.mapM_cons]
    rcases h with ⟨d0, hmem, hbad⟩
    rcases List.mem_cons.mp hmem with h1 | h1
    · subst h1
      rw [(strContent_false_iff d0).mp hbad]
      rfl
    · cases hc : d1.contentStr with
      | none => rfl
      | some c => rw [ih ⟨d0, h1, hbad⟩]; rfl

theorem mapM_contentStr_good :
    ∀ (docs : List Doc) (r : List String), docs.mapM Doc.contentStr = some r →
      ∀ d0 ∈ docs, d0.strContent = true := by
  intro docs
  induction docs with
  | nil => intro r _ d0 h; simp at h
  | cons d1 rest ih =>
    intro r hm d0 hmem
    rw [List.mapM_cons] at hm
    cases hc : d1.contentStr with
    | none => rw [hc] at hm; exact absurd hm (by simp)
    | some c =>
      rw [hc] at hm
      rcases List.mem_cons.mp hmem with h1 | h1
      · subst h1
        by_contra hbad
        rw [Bool.not_eq_true] at hbad
        rw [(strContent_false_iff d0).mp hbad] at hc
        exact absurd hc (by simp)
      · cases hrest : rest.mapM Doc.contentStr with
        | none => rw [hrest] at hm; exact absurd hm (by simp)
        | some rs => exact ih rs hrest d0 h1

/-- Claim C7 as frozen says insertion fails on an empty-string `content`.
It does not: both indexes only test presence and `isinstance(..., str)`, so a
document whose `content` is the empty string is inserted successfully (by
`BM25Index.add_document` here, and by `VectorIndex.add_document` whenever an
embedding function is configured). -/
theorem claim_C7_counterexample :
    (bm25_add_document default_tokenizer (bm25_init (3 / 2) (3 / 4))
        ⟨0, [(contentKey, PyVal.pstr "")]⟩).isSome = true
    ∧ (vadd_document (vinit DistMetric.cosine (some (fun _ => [0, 0])))
        ⟨0, [(contentKey, PyVal.pstr "")]⟩).isSome = true := by
  constructor <;> rfl

/-- Claim C7, amended: insertion (single or batch, dense or lexical index)
fails whenever the document's `content` field is missing or not a string, and
a successfully inserted document always has a string `content` (possibly
empty). -/
theorem claim_C7_content_validation (st : BM25State) (vst : VectorIndexState)
    (tok : String → List String) (d : Doc) (docs : List Doc) :
    (bm25_add_document tok st d = none ↔ d.strContent = false)
    ∧ (d.strContent = false → vadd_document vst d = none)
    ∧ (∀ st', bm25_add_document tok st d = some st' → d.strContent = true)
    ∧ (∀ vst', vadd_document vst d = some vst' → d.strContent = true)
    ∧ ((∃ d0 ∈ docs, d0.strContent = false) → bm25_add_documents tok st docs = none)
    ∧ ((∃ d0 ∈ docs, d0.strContent = false) → vadd_documents vst docs = none)
    ∧ (∀ st', bm25_add_documents tok st docs = some st' →
        ∀ d0 ∈ docs, d0.strContent = true)
    ∧ (∀ vst', vadd_documents vst docs = some vst' →
        ∀ d0 ∈ docs, d0.strContent = true) := by
  refine ⟨bm25_add_document_none_iff tok st d, ?_, ?_, ?_, ?_, ?_, ?_, ?_⟩
  · intro hbad
    unfold vadd_document
    cases vst.embedding_fn with
    | none => rfl
    | some f =>
      rcases (strContent_false_iff d).mp hbad with hc
      unfold Doc.contentStr at hc
      cases h : d.get contentKey with
      | none => simp
      | some v => cases v <;> simp_all
  · intro st' hs
    by_contra hbad
    rw [Bool.not_eq_true] at hbad
    rw [(bm25_add_document_none_iff tok st d).mpr hbad] at hs
    exact absurd hs (by simp)
  · intro vst' hs
    unfold vadd_document at hs
    cases hf : vst.embedding_fn with
    | none => rw [hf] at hs; exact absurd hs (by simp)
    | some f =>
      rw [hf] at hs
      unfold Doc.strContent
      cases h : d.get contentKey with
      | none => rw [h] at hs; exact absurd hs (by simp)
      | some v => cases v <;> rw [h] at hs <;> simp_all
  · intro hbad
    unfold bm25_add_documents
    rcases hbad with ⟨d0, hmem, h0⟩
    have hne : docs.isEmpty = false := by
      cases docs with
      | nil => simp at hmem
      | cons a l => rfl
    rw [hne]
    simpa using bm25_fold_bad tok docs st ⟨d0, hmem, h0⟩
  · intro hbad
    unfold vadd_documents
    cases vst.embedding_fn with
    | none => rfl
    | some f =>
      rcases hbad with ⟨d0, hmem, h0⟩
      have hne : docs.isEmpty = false := by
        cases docs with
        | nil => simp at hmem
        | cons a l => rfl
      rw [hne]
      simp only [Bool.false_eq_true, if_false]
      rw [mapM_contentStr_bad docs ⟨d0, hmem, h0⟩]
  · intro st' hs
    unfold bm25_add_documents at hs
    cases hne : docs.isEmpty with
    | true => intro d0 hmem; rw [List.isEmpty_iff] at hne; subst hne; simp at hmem
    | false =>
      rw [hne] at hs
      simp only [Bool.false_eq_true, if_false] at hs
      exact bm25_fold_good tok docs st st' hs
  · intro vst' hs
    unfold vadd_documents at hs
    cases hf : vst.embedding_fn with
    | none => rw [hf] at hs; exact absurd hs (by simp)
    | some f =>
      rw [hf] at hs
      cases hne : docs.isEmpty with
      | true => intro d0 hmem; rw [List.isEmpty_iff] at hne; subst hne; simp at hmem
      | false =>
        rw [hne] at hs
        simp only [Bool.false_eq_true, if_false] at hs
        cases hm : docs.mapM Doc.contentStr with
        | none => rw [hm] at hs; exact absurd hs (by simp)
        | some contents => exact mapM_contentStr_good docs contents hm

/-- Witness for the amended C7 at concrete inputs: a document whose `content`
key is absent is rejected by `BM25Index.add_document`. -/
theorem claim_C7_content_validation_witness :
    bm25_add_document default_tokenizer (bm25_init (3 / 2) (3 / 4))
      ⟨7, [("title", PyVal.pstr "no content here")]⟩ = none :=
  (claim_C7_content_validation (bm25_init (3 / 2) (3 / 4))
    (vinit DistMetric.cosine none) default_tokenizer
    ⟨7, [("title", PyVal.pstr "no content here")]⟩ []).1.mpr (by decide)

/-! ## C8 — text query without an embedding function -/

/-- Claim C8 as frozen says a text-query search on an index built without an
embedding function fails in every state, including the empty index.  It does
not: `VectorIndex.search` returns `[]` on an empty index before it ever
examines the query, so the empty index answers a text query with an empty
result instead of raising. -/
theorem claim_C8_counterexample :
    vsearch (vinit DistMetric.cosine none) (VQuery.qstr "anything") 1 = some [] :=
  rfl

/-- Claim C8, amended: on every dense index holding at least one vector and
constructed without an embedding function, a text (string) query fails with
an error rather than returning a result. -/
theorem claim_C8_no_embedding_error (st : VectorIndexState) (s : String)
    (k : Int) (hne : st.vectors ≠ []) (hemb : st.embedding_fn = none) :
    vsearch st (VQuery.qstr s) k = none := by
  have h1 : st.vectors.isEmpty = false := by
    simp [List.isEmpty_iff, hne]
  simp only [vsearch, h1, hemb, Bool.false_eq_true, if_false]

/-- Witness for the amended C8: a one-vector cosine index with no embedding
function raises on a text query. -/
theorem claim_C8_no_embedding_error_witness :
    vsearch ⟨[[1, 0]], [⟨0, [(contentKey, PyVal.pstr "w")]⟩], some 2,
        DistMetric.cosine, none⟩ (VQuery.qstr "hello") 1 = none :=
  claim_C8_no_embedding_error _ "hello" 1 (by simp) rfl

/-! ## C6 — dense-index dimension invariant -/

theorem add_vector_preserves (st : VectorIndexState) (v : List ℚ) (d : Doc)
    (st' : VectorIndexState) (hne : st.vectors ≠ [])
    (hs : add_vector st v d = some st') :
    st'.vector_dim = st.vector_dim ∧ st'.vectors ≠ [] := by
  have h1 : st.vectors.isEmpty = false := by
    simp [List.isEmpty_iff, hne]
  unfold add_vector at hs
  rw [h1] at hs
  split at hs
  · exact absurd hs (by simp)
  · simp only [Bool.false_eq_true, if_false] at hs
    split at hs
    · exact absurd hs (by simp)
    · rw [Option.some_inj] at hs
      subst hs
      exact ⟨rfl, by simp⟩

/-- Claim C6: the first inserted vector fixes the dimension; a later
`add_vector` whose length differs fails; the dimension survives every
successful insertion and every successful sequence of insertions. -/
theorem claim_C6_dimension_invariant (st : VectorIndexState) (v : List ℚ)
    (d : Doc) (dim : Nat) :
    (st.vectors = [] → d.get contentKey ≠ none →
      ∃ st', add_vector st v d = some st' ∧ st'.vector_dim = some v.length ∧
        st'.vectors ≠ [])
    ∧ (st.vectors ≠ [] → st.vector_dim = some dim → v.length ≠ dim →
        add_vector st v d = none)
    ∧ (∀ st', st.vectors ≠ [] → st.vector_dim = some dim →
        add_vector st v d = some st' →
        st'.vector_dim = some dim ∧ st'.vectors ≠ [])
    ∧ (∀ ops st', st.vectors ≠ [] → st.vector_dim = some dim →
        add_vector_seq st ops = some st' → st'.vector_dim = some dim) := by
  refine ⟨?_, ?_, ?_, ?_⟩
  · intro hempty hc
    have h1 : st.vectors.isEmpty = true := by simp [List.isEmpty_iff, hempty]
    have hs : add_vector st v d = some
        (VectorIndexState.mk (st.vectors ++ [v]) (st.documents ++ [d])
          (some v.length) st.distance_metric st.embedding_fn) := by
      unfold add_vector
      rw [if_neg hc, h1]
      rfl
    exact ⟨_, hs, rfl, by simp⟩
  · intro hne hdim hlen
    have h1 : st.vectors.isEmpty = false := by simp [List.isEmpty_iff, hne]
    unfold add_vector
    rw [h1]
    split
    · rfl
    · simp only [Bool.false_eq_true, if_false]
      rw [if_pos]
      rw [hdim]
      simp [Ne.symm hlen]
  · intro st' hne hdim hs
    have h := add_vector_preserves st v d st' hne hs
    exact ⟨h.1.trans hdim, h.2⟩
  · intro ops
    induction ops generalizing st with
    | nil =>
      intro st' _ hdim hs
      unfold add_vector_seq at hs
      simp only [List.foldlM_nil, Option.pure_def, Option.some_inj] at hs
      subst hs
      exact hdim
    | cons p rest ih =>
      intro st' hne hdim hs
      unfold add_vector_seq at hs
      rw [List.foldlM_cons] at hs
      cases h1 : add_vector st p.1 p.2 with
      | none => rw [h1] at hs; exact absurd hs (by simp)
      | some s1 =>
        rw [h1] at hs
        have hp := add_vector_preserves st p.1 p.2 s1 hne h1
        exact ih s1 st' hp.2 (hp.1.trans hdim) hs

/-- Witness for C6: a 2-dimensional index rejects a 3-dimensional vector. -/
theorem claim_C6_dimension_invariant_witness :
    add_vector ⟨[[1, 0]], [⟨0, [(contentKey, PyVal.pstr "w")]⟩], some 2,
        DistMetric.cosine, none⟩ [1, 2, 3] ⟨1, [(contentKey, PyVal.pstr "x")]⟩
      = none :=
  (claim_C6_dimension_invariant _ [1, 2, 3] _ 2).2.1 (by simp) rfl (by decide)

/-! ## C3 — cosine distance -/

/-- The clamp to `[-1, 1]` applied to the similarity
(`max(-1.0, min(1.0, ...))` in the source). -/
noncomputable def clamp (x : ℝ) : ℝ := max (-1) (min 1 x)

/-- Cosine similarity as the spec describes it: the dot product over the
product of the magnitudes. -/
noncomputable def spec_cosine_similarity (v1 v2 : List ℚ) : ℝ :=
  ((dot_product v1 v2 : ℚ) : ℝ) / (magnitude v1 * magnitude v2)

/-- Claim C3: on equal-length vectors the cosine distance is
`1 − clamp(similarity)`; it is `1` when exactly one vector has zero
magnitude, `0` when both do; and for the orthogonal unit vectors
`[1,0]`, `[0,1]` it is exactly `1`. -/
theorem claim_C3_cosine_distance (v1 v2 : List ℚ) (h : v1.length = v2.length) :
    (magnitude v1 = 0 → magnitude v2 = 0 → cosine_distance v1 v2 = some 0)
    ∧ (magnitude v1 = 0 → magnitude v2 ≠ 0 → cosine_distance v1 v2 = some 1)
    ∧ (magnitude v1 ≠ 0 → magnitude v2 = 0 → cosine_distance v1 v2 = some 1)
    ∧ (magnitude v1 ≠ 0 → magnitude v2 ≠ 0 →
        cosine_distance v1 v2 = some (1 - clamp (spec_cosine_similarity v1 v2)))
    ∧ cosine_distance [1, 0] [0, 1] = some 1 := by
  have hlen : ¬ v1.length ≠ v2.length := not_not_intro h
  refine ⟨?_, ?_, ?_, ?_, ?_⟩
  · intro h1 h2
    unfold cosine_distance
    rw [if_neg hlen, if_pos ⟨h1, h2⟩]
  · intro h1 h2
    unfold cosine_distance
    rw [if_neg hlen, if_neg (fun hb => h2 hb.2), if_pos (Or.inl h1)]
  · intro h1 h2
    unfold cosine_distance
    rw [if_neg hlen, if_neg (fun hb => h1 hb.1), if_pos (Or.inr h2)]
  · intro h1 h2
    unfold cosine_distance
    rw [if_neg hlen, if_neg (fun hb => h1 hb.1),
      if_neg (fun hb => hb.elim h1 h2)]
    rfl
  · have m1 : magnitude [1, 0] = 1 := by
      unfold magnitude sumSq
      norm_num
    have m2 : magnitude [0, 1] = 1 := by
      unfold magnitude sumSq
      norm_num
    have hd : dot_product [1, 0] [0, 1] = 0 := by
      unfold dot_product
      norm_num
    unfold cosine_distance
    rw [if_neg (by norm_num), if_neg (by rw [m1]; norm_num),
      if_neg (by rw [m1, m2]; norm_num)]
    rw [m1, m2, hd]
    norm_num

/-- Witness for C3: the orthogonal-unit-vector scenario, obtained from the
theorem with its length hypothesis discharged. -/
theorem claim_C3_cosine_distance_witness :
    cosine_distance [1, 0] [0, 1] = some 1 :=
  (claim_C3_cosine_distance [1, 0] [0, 1] rfl).2.2.2.2

/-! ## C1 — the BM25 scoring formula -/

/-- IDF as the spec writes it: `ln((N - df + 0.5)/(df + 0.5) + 1)`. -/
noncomputable def spec_idf (N : Nat) (freq : Nat) : ℝ :=
  Real.log ((((N : ℝ) - (freq : ℝ) + 1 / 2) / ((freq : ℝ) + 1 / 2)) + 1)

/-- One BM25 summand as the spec writes it:
`idf · tf · (k1+1) / (tf + k1·(1 − b + b·|d|/avglen) + ε)`. -/
noncomputable def spec_bm25_term (k1 b avg idfv tf dl : ℝ) : ℝ :=
  idfv * tf * (k1 + 1) / (tf + k1 * (1 - b + b * (dl / avg)) + ((epsScore : ℚ) : ℝ))

/-- The BM25 score as the spec writes it: the sum over query tokens, a token
absent from the IDF table contributing zero. -/
noncomputable def spec_bm25_score (st : BM25State) (qts : List String) (i : Nat) : ℝ :=
  (qts.map (fun t =>
    match alookup st.idf t with
    | none => 0
    | some idfv =>
      spec_bm25_term (st.k1 : ℝ) (st.b : ℝ) ((st.avg_doc_len : ℚ) : ℝ) idfv
        ((st.corpus_tokens.getD i []).count t : ℝ)
        ((st.doc_len.getD i 0 : ℕ) : ℝ))).sum

theorem foldl_match_sum {α : Type} (look : α → Option ℝ) (f : α → ℝ → ℝ) :
    ∀ (l : List α) (a : ℝ),
      l.foldl (fun score t =>
        match look t with
        | none => score
        | some v => score + f t v) a
        = a + (l.map (fun t =>
            match look t with
            | none => 0
            | some v => f t v)).sum := by
  intro l
  induction l with
  | nil => intro a; simp
  | cons t ts ih =>
    intro a
    rw [List.foldl_cons, List.map_cons, List.sum_cons]
    cases hl : look t with
    | none => rw [ih]; ring_nf
    | some v => rw [ih]; ring_nf

theorem compute_bm25_score_eq_spec (st : BM25State) (qts : List String) (i : Nat) :
    compute_bm25_score st qts i = spec_bm25_score st qts i := by
  have h := foldl_match_sum (alookup st.idf)
    (fun t v =>
      spec_bm25_term (st.k1 : ℝ) (st.b : ℝ) ((st.avg_doc_len : ℚ) : ℝ) v
        ((st.corpus_tokens.getD i []).count t : ℝ)
        ((st.doc_len.getD i 0 : ℕ) : ℝ)) qts 0
  rw [zero_add] at h
  exact h

theorem build_index_documents (st : BM25State) :
    (build_index st).documents = st.documents := by
  unfold build_index calculate_idf
  split <;> rfl

theorem alookup_build_idf (st : BM25State) (hne : st.documents ≠ []) (t : String) :
    alookup (build_index st).idf t =
      (alookup st.doc_freqs t).map (spec_idf st.documents.length) := by
  have h1 : st.documents.isEmpty = false := by simp [List.isEmpty_iff, hne]
  unfold build_index
  rw [h1]
  simp only [Bool.false_eq_true, if_false]
  unfold calculate_idf alookup spec_idf
  rw [List.find?_map]
  simp only [Option.map_map]
  rfl

theorem build_index_avg (st : BM25State) (hne : st.documents ≠ []) :
    (build_index st).avg_doc_len = (st.doc_len.sum : ℚ) / (st.documents.length : ℚ) := by
  have h1 : st.documents.isEmpty = false := by simp [List.isEmpty_iff, hne]
  unfold build_index calculate_idf
  rw [h1]
  simp only [Bool.false_eq_true, if_false]
  rw [Nat.cast_list_sum]

/-- Claim C1: after the (lazy) rebuild of a nonempty corpus with nonzero
total token count, the IDF table is exactly `doc_freqs` mapped through
`ln((N − df + 0.5)/(df + 0.5) + 1)`, the average document length is nonzero,
the raw BM25 score is the spec's sum over query tokens present in the IDF
table, and a token absent from the table contributes exactly zero. -/
theorem claim_C1_bm25_score_formula (st : BM25State) (qts : List String)
    (i : Nat) (hne : st.documents ≠ []) (hsum : st.doc_len.sum ≠ 0) :
    (∀ t, alookup (build_index st).idf t =
        (alookup st.doc_freqs t).map (spec_idf st.documents.length))
    ∧ (build_index st).avg_doc_len ≠ 0
    ∧ compute_bm25_score (build_index st) qts i
        = spec_bm25_score (build_index st) qts i
    ∧ (∀ t, alookup (build_index st).idf t = none →
        spec_bm25_score (build_index st) (t :: qts) i
          = spec_bm25_score (build_index st) qts i) := by
  refine ⟨alookup_build_idf st hne, ?_, compute_bm25_score_eq_spec _ qts i, ?_⟩
  · rw [build_index_avg st hne]
    have hn : (st.doc_len.sum : ℚ) ≠ 0 := by
      exact_mod_cast hsum
    have hd : (st.documents.length : ℚ) ≠ 0 := by
      have : st.documents.length ≠ 0 := by
        simpa [List.length_eq_zero] using hne
      exact_mod_cast this
    exact div_ne_zero hn hd
  · intro t ht
    unfold spec_bm25_score
    rw [List.map_cons, List.sum_cons, ht]
    simp

/-- Witness for C1 at a one-document index (`"cat sat"`): its rebuilt
average document length is nonzero. -/
theorem claim_C1_bm25_score_formula_witness :
    (build_index (BM25State.mk [⟨1, [(contentKey, PyVal.pstr "cat sat")]⟩]
      [["cat", "sat"]] [2] [("cat", 1), ("sat", 1)] 0 [] false
      (3 / 2) (3 / 4))).avg_doc_len ≠ 0 :=
  (claim_C1_bm25_score_formula _ ["cat"] 0 (by decide) (by decide)).2.1

/-! ## C4 — lexical normalization direction -/

theorem mem_bm25_raw_scores (st : BM25State) (qts : List String)
    (p : ℝ × Doc) (hp : p ∈ bm25_raw_scores st qts) :
    ((epsScore : ℚ) : ℝ) < p.1 := by
  unfold bm25_raw_scores at hp
  rcases List.mem_filterMap.mp hp with ⟨a, _, ha⟩
  by_cases hc : ((epsScore : ℚ) : ℝ) < compute_bm25_score st qts a.1
  · rw [if_pos hc, Option.some_inj] at ha
    rw [← ha]
    exact hc
  · rw [if_neg hc] at ha
    exact absurd ha (by simp)

/-- Claim C4: under a positive normalization factor, a lexical search that
reaches the scoring stage returns exactly the descending-raw-score top `k`
mapped through `exp(-factor·raw)` (the final ascending re-sort is the
identity on it); candidates all exceed the `1e-9` threshold, the top-`k` list
is descending in raw score, the output is ascending in normalized score, and
the normalization strictly reverses strict raw-score comparisons. -/
theorem claim_C4_normalization_direction (tok : String → List String)
    (st : BM25State) (q : String) (k : Int) (factor : ℚ)
    (hne : st.documents ≠ []) (hk : 0 < k) (hf : 0 < factor)
    (havg : (if st.index_built then st else build_index st).avg_doc_len ≠ 0)
    (hq : tok q ≠ []) :
    let st1 := if st.index_built then st else build_index st
    let topk := bm25_topk st1 (tok q) k
    let norm := bm25_normalize factor topk
    bm25_search tok st q k factor = some norm
    ∧ (∀ p ∈ bm25_raw_scores st1 (tok q), ((epsScore : ℚ) : ℝ) < p.1)
    ∧ topk.Pairwise (fun a b => b.1 ≤ a.1)
    ∧ norm.Pairwise (fun x y => x.2 ≤ y.2)
    ∧ (∀ a b : ℝ, a < b →
        Real.exp (-(((factor : ℚ) : ℝ) * b)) < Real.exp (-(((factor : ℚ) : ℝ) * a))) := by
  intro st1 topk norm
  have hfR : (0 : ℝ) < ((factor : ℚ) : ℝ) := by exact_mod_cast hf
  have hsorted : topk.Pairwise (fun a b : ℝ × Doc => b.1 ≤ a.1) := by
    have hs := List.sorted_insertionSort (fun a b : ℝ × Doc => b.1 ≤ a.1)
      (bm25_raw_scores st1 (tok q))
    exact hs.sublist (List.take_sublist _ _)
  have hnorm : norm.Pairwise (fun x y : Doc × ℝ => x.2 ≤ y.2) := by
    show (topk.map (fun p =>
      (p.2, Real.exp (-(((factor : ℚ) : ℝ) * p.1))))).Pairwise
      (fun x y : Doc × ℝ => x.2 ≤ y.2)
    rw [List.pairwise_map]
    refine hsorted.imp ?_
    intro a b h
    simp only
    rw [Real.exp_le_exp, neg_le_neg_iff]
    exact mul_le_mul_of_nonneg_left h (le_of_lt hfR)
  refine ⟨?_, fun p hp => mem_bm25_raw_scores st1 (tok q) p hp, hsorted, hnorm, ?_⟩
  · have h1 : st.documents.isEmpty = false := by simp [List.isEmpty_iff, hne]
    have h2 : ¬ k ≤ 0 := not_le.mpr hk
    have h3 : (tok q).isEmpty = false := by simp [List.isEmpty_iff, hq]
    unfold bm25_search
    rw [h1]
    simp only [Bool.false_eq_true, if_false]
    rw [if_neg h2, if_neg havg, h3]
    simp only [Bool.false_eq_true, if_false]
    rw [Option.some_inj]
    exact List.Sorted.insertionSort_eq hnorm
  · intro a b hab
    rw [Real.exp_lt_exp, neg_lt_neg_iff]
    exact mul_lt_mul_of_pos_left hab hfR

/-- Witness for C4 at a built one-document index, `factor = 1`, `k = 1`:
the normalization strictly reverses the comparison of the raw scores `0 < 1`. -/
theorem claim_C4_normalization_direction_witness :
    Real.exp (-(((1 : ℚ) : ℝ) * 1)) < Real.exp (-(((1 : ℚ) : ℝ) * 0)) :=
  (claim_C4_normalization_direction default_tokenizer
    (BM25State.mk [⟨1, [(contentKey, PyVal.pstr "cat sat")]⟩]
      [["cat", "sat"]] [2] [("cat", 1), ("sat", 1)] 1 [("cat", 1)] true
      (3 / 2) (3 / 4)) "cat" 1 1
    (by decide) (by decide) (by decide) (by decide) (by decide)).2.2.2.2
    0 1 (by norm_num)

/-! ## C2 — Reciprocal Rank Fusion -/

theorem list_eq_range_map_getD {α : Type} (l : List α) (e : α) (n : Nat)
    (hlen : l.length = n) :
    l = (List.range n).map (fun i => l.getD i e) := by
  apply List.ext_getElem
  · simp [hlen]
  · intro i h1 h2
    simp only [List.getElem_map, List.getElem_range, List.getD_eq_getElem?_getD]
    rw [List.getElem?_eq_getElem h1]
    rfl

theorem calc_rrf_score_eq_range (k_rrf : Int) (ranks : List (Option Nat))
    (n : Nat) (hlen : ranks.length = n) :
    calc_rrf_score k_rrf ranks
      = ((List.range n).map (fun i =>
          match ranks.getD i none with
          | none => (0 : ℚ)
          | some rk => 1 / ((k_rrf : ℚ) + (rk : ℚ)))).sum := by
  unfold calc_rrf_score
  conv_lhs => rw [list_eq_range_map_getD ranks none n hlen]
  rw [List.map_map]
  rfl

theorem spec_rrf_score_eq_range (k_rrf : Int) (L : List (List Doc)) (o : Nat) :
    spec_rrf_score k_rrf L o
      = ((List.range L.length).map (fun i =>
          spec_rrf_contrib k_rrf (L.getD i []) o)).sum := by
  unfold spec_rrf_score
  conv_lhs => rw [list_eq_range_map_getD L [] L.length rfl]
  rw [List.map_map]
  rfl

theorem final_table_entry_score (k_rrf : Int) (L : List (List Doc))
    (hnd : ∀ l ∈ L, (l.map Doc.oid).Nodup)
    (e : Nat × Doc × List (Option Nat))
    (he : e ∈ buildRanksFrom L.length [] 0 L) :
    e.2.1.oid = e.1 ∧ calc_rrf_score k_rrf e.2.2 = spec_rrf_score k_rrf L e.1 := by
  have hoid := buildRanksFrom_oid L.length L [] 0 (by simp) e he
  have hlen := buildRanksFrom_len L.length L [] 0 (by simp) e he
  have hkeys := buildRanksFrom_keys_nodup L.length L [] 0 (by simp)
  have hlk := tlookup_of_mem _ hkeys e he
  have hslots : ∀ i, slotM (buildRanksFrom L.length [] 0 L) e.1 i
      = e.2.2.getD i none := by
    intro i
    unfold slotM
    rw [hlk]
  have hchar : ∀ i, i < L.length → e.2.2.getD i none =
      match (L.getD i []).findIdx? (fun d0 => d0.oid = e.1) with
      | some j => some (j + 1)
      | none => none := by
    intro i hi
    rw [← hslots i]
    rw [slotM_buildRanksFrom L.length L [] 0 e.1 i hnd (by omega) (by simp)]
    rw [if_pos ⟨Nat.zero_le i, by omega⟩, Nat.sub_zero]
    cases h : (L.getD i []).findIdx? (fun d0 => d0.oid = e.1) with
    | some j => rfl
    | none => rfl
  refine ⟨hoid, ?_⟩
  rw [calc_rrf_score_eq_range k_rrf e.2.2 L.length hlen,
    spec_rrf_score_eq_range k_rrf L e.1]
  congr 1
  apply List.map_congr_left
  intro i hi
  rw [List.mem_range] at hi
  rw [hchar i hi]
  unfold spec_rrf_contrib spec_rank
  cases h : (L.getD i []).findIdx? (fun d0 => d0.oid = e.1) with
  | none => rfl
  | some j => rfl

theorem spec_rrf_contrib_le (k_rrf : Int) (hk : 0 ≤ k_rrf) (docs : List Doc)
    (o : Nat) :
    spec_rrf_contrib k_rrf docs o ≤ 1 / ((k_rrf : ℚ) + 1) := by
  have hkQ : (0 : ℚ) ≤ (k_rrf : ℚ) := by exact_mod_cast hk
  have h1 : (0 : ℚ) < (k_rrf : ℚ) + 1 := by linarith
  unfold spec_rrf_contrib
  cases spec_rank docs o with
  | none => positivity
  | some j =>
    have h2 : (k_rrf : ℚ) + 1 ≤ (k_rrf : ℚ) + ((j + 1 : ℕ) : ℚ) := by
      have h3 : (1 : ℚ) ≤ ((j + 1 : ℕ) : ℚ) := by exact_mod_cast Nat.succ_le_succ (Nat.zero_le j)
      linarith
    exact one_div_le_one_div_of_le h1 h2

theorem spec_rrf_score_le (k_rrf : Int) (hk : 0 ≤ k_rrf) (L : List (List Doc))
    (o : Nat) :
    spec_rrf_score k_rrf L o ≤ (L.length : ℚ) / ((k_rrf : ℚ) + 1) := by
  unfold spec_rrf_score
  have h := List.sum_le_card_nsmul
    (L.map (fun docs => spec_rrf_contrib k_rrf docs o)) (1 / ((k_rrf : ℚ) + 1))
    (by
      intro x hx
      rcases List.mem_map.mp hx with ⟨docs, _, hd⟩
      rw [← hd]
      exact spec_rrf_contrib_le k_rrf hk docs o)
  rw [List.length_map, nsmul_eq_mul, mul_one_div] at h
  exact h

theorem spec_rrf_score_top (k_rrf : Int) (L : List (List Doc)) (o : Nat)
    (h : ∀ l ∈ L, l.findIdx? (fun d0 => d0.oid = o) = some 0) :
    spec_rrf_score k_rrf L o = (L.length : ℚ) / ((k_rrf : ℚ) + 1) := by
  unfold spec_rrf_score
  have hmap : L.map (fun docs => spec_rrf_contrib k_rrf docs o)
      = L.map (fun _ => 1 / ((k_rrf : ℚ) + 1)) := by
    apply List.map_congr_left
    intro l hl
    unfold spec_rrf_contrib spec_rank
    rw [h l hl]
    norm_num
  rw [hmap, List.map_const', List.sum_replicate, nsmul_eq_mul, mul_one_div]

/-- Claim C2: with valid arguments, `Retriever.search` (no reranker) queries
each index for `5k` candidates and returns the rank-fused list: every
returned document's fusion score is `Σ over indexes of 1/(k_rrf + rank)` of
its 1-based rank (0 for an index that does not return it), only positive
scores survive, the list is sorted descending by fusion score and truncated
to `k`; the score is bounded by `N/(k_rrf + 1)` and a document ranked first by
every index attains exactly that bound. -/
theorem claim_C2_rrf_fusion {S : Type} (idxs : List (String → Int → List (Doc × S)))
    (gen : Nat → String) (q : String) (k k_rrf : Int)
    (hk : 0 < k) (hkr : 0 ≤ k_rrf)
    (hnd : ∀ l ∈ idxs.map (fun f0 => (f0 q (k * 5)).map Prod.fst),
      (l.map Doc.oid).Nodup) :
    let L := idxs.map (fun f0 => (f0 q (k * 5)).map Prod.fst)
    let out := rrf_fuse k_rrf k L
    retriever_search idxs none gen q k k_rrf = some out
    ∧ (∀ p ∈ out, p.2 = spec_rrf_score k_rrf L p.1.oid ∧ 0 < p.2)
    ∧ out.Pairwise (fun a b => b.2 ≤ a.2)
    ∧ out.length ≤ k.toNat
    ∧ (∀ o, spec_rrf_score k_rrf L o ≤ (L.length : ℚ) / ((k_rrf : ℚ) + 1))
    ∧ (∀ o, (∀ l ∈ L, l.findIdx? (fun d0 => d0.oid = o) = some 0) →
        spec_rrf_score k_rrf L o = (L.length : ℚ) / ((k_rrf : ℚ) + 1)) := by
  intro L out
  refine ⟨?_, ?_, ?_, ?_, fun o => spec_rrf_score_le k_rrf hkr L o,
    fun o h => spec_rrf_score_top k_rrf L o h⟩
  · unfold retriever_search
    rw [if_neg (not_le.mpr hk), if_neg (not_lt.mpr hkr)]
  · intro p hp
    have hp1 : p ∈ ((((buildRanksFrom L.length [] 0 L).map
        (fun e => (e.2.1, calc_rrf_score k_rrf e.2.2))).filter
          (fun p0 => 0 < p0.2)).insertionSort (fun a b => b.2 ≤ a.2)) :=
      (List.take_sublist _ _).mem hp
    rw [List.mem_insertionSort] at hp1
    obtain ⟨hp2, hp3⟩ := List.mem_filter.mp hp1
    rcases List.mem_map.mp hp2 with ⟨e, he, hep⟩
    obtain ⟨hoid, hscore⟩ := final_table_entry_score k_rrf L hnd e he
    constructor
    · rw [← hep]
      show calc_rrf_score k_rrf e.2.2 = spec_rrf_score k_rrf L e.2.1.oid
      rw [hscore, hoid]
    · exact of_decide_eq_true hp3
  · have hs := List.sorted_insertionSort (fun a b : Doc × ℚ => b.2 ≤ a.2)
      (((buildRanksFrom L.length [] 0 L).map
        (fun e => (e.2.1, calc_rrf_score k_rrf e.2.2))).filter (fun p0 => 0 < p0.2))
    exact hs.sublist (List.take_sublist _ _)
  · exact List.length_take_le _ _

/-- Concrete documents and index functions for the C2 witness. -/
def wDoc1 : Doc := ⟨1, [(idKey, PyVal.pstr "a"), (contentKey, PyVal.pstr "cat")]⟩

def wDoc2 : Doc := ⟨2, [(idKey, PyVal.pstr "b"), (contentKey, PyVal.pstr "dog")]⟩

def wIdxA : String → Int → List (Doc × ℚ) := fun _ _ => [(wDoc1, 1 / 10), (wDoc2, 1 / 5)]

def wIdxB : String → Int → List (Doc × ℚ) := fun _ _ => [(wDoc2, 3 / 10)]

def wL : List (List Doc) := [wIdxA, wIdxB].map (fun f0 => (f0 "q" (1 * 5)).map Prod.fst)

/-- Witness for C2: a two-index retriever with one shared document returns
exactly the fused list. -/
theorem claim_C2_rrf_fusion_witness :
    retriever_search [wIdxA, wIdxB] none (fun _ => "x") "q" 1 60
      = some (rrf_fuse 60 1 wL) :=
  (claim_C2_rrf_fusion [wIdxA, wIdxB] (fun _ => "x") "q" 1 60
    (by decide) (by decide) (by decide)).1

/-! ## C5 — reranker authority -/

/-- The candidate carrying a given identifier string, as the spec reads:
"mapped back to candidate documents" by the `id` field. -/
def spec_find_by_id (cands : List Doc) (s : String) : Option Doc :=
  cands.find? (fun d0 => d0.get idKey = some (PyVal.pstr s))

/-- The original fusion score of a candidate document, recovered from the
pre-rerank result list by object identity. -/
def spec_score_of (result : List (Doc × ℚ)) (d : Doc) : ℚ :=
  ((result.find? (fun p => p.1.oid = d.oid)).map Prod.snd).getD 0

theorem zip_fst_snd : ∀ (result : List (Doc × ℚ)),
    (result.map Prod.fst).zip (result.map Prod.snd) = result := by
  intro result
  induction result with
  | nil => rfl
  | cons p rest ih =>
    show (p.1, p.2) :: (rest.map Prod.fst).zip (rest.map Prod.snd) = p :: rest
    rw [ih]

theorem assign_ids_of_has_id (gen : Nat → String) :
    ∀ (docs : List Doc) (cnt : Nat), (∀ d ∈ docs, d.get idKey ≠ none) →
      assign_ids gen cnt docs = docs := by
  intro docs
  induction docs with
  | nil => intro cnt _; rfl
  | cons d rest ih =>
    intro cnt h
    show (ensure_id gen cnt d).1 :: assign_ids gen (ensure_id gen cnt d).2 rest
      = d :: rest
    rw [show ensure_id gen cnt d = (d, cnt) from by
      unfold ensure_id
      rw [if_neg (h d (by simp))]]
    rw [ih cnt (fun d0 hd0 => h d0 (List.mem_cons_of_mem _ hd0))]

/-- Claim C5: with a reranker configured and distinctly-identified
candidates, the final list is exactly the reranker's identifier sequence
mapped back to candidates — reranker order and cardinality, unmatched
identifiers ignored, omitted candidates dropped — and each surviving entry
is an original `(document, fusion score)` pair. -/
theorem claim_C5_reranker_authority (gen : Nat → String)
    (rr : List Doc → String → Int → List String) (result : List (Doc × ℚ))
    (q : String) (k : Int)
    (hid : ∀ p ∈ result, p.1.get idKey ≠ none)
    (hnd : ((result.map Prod.fst).map (fun d0 => d0.get idKey)).Nodup)
    (hoid : ((result.map Prod.fst).map Doc.oid).Nodup) :
    rerank_step gen rr result q k
      = (rr (result.map Prod.fst) q k).filterMap (fun s =>
          (spec_find_by_id (result.map Prod.fst) s).map
            (fun d0 => (d0, spec_score_of result d0)))
    ∧ (∀ p ∈ rerank_step gen rr result q k, p ∈ result)
    ∧ (rerank_step gen rr result q k).map Prod.fst
        = (rr (result.map Prod.fst) q k).filterMap
            (spec_find_by_id (result.map Prod.fst)) := by
  have hoid2 : (result.map (fun p => p.1.oid)).Nodup := by
    rw [List.map_map] at hoid
    exact hoid
  have hhas : ∀ d ∈ result.map Prod.fst, d.get idKey ≠ none := by
    intro d hd
    rcases List.mem_map.mp hd with ⟨p, hp, hpd⟩
    rw [← hpd]
    exact hid p hp
  have hassign : assign_ids gen 0 (result.map Prod.fst) = result.map Prod.fst :=
    assign_ids_of_has_id gen _ 0 hhas
  have hlookup : ∀ s : String,
      plookup (dict_of_docs (result.map Prod.fst)) (PyVal.pstr s)
        = spec_find_by_id (result.map Prod.fst) s := by
    intro s
    rw [plookup_dict_of_docs]
    exact reverse_find?_of_nodup (fun d0 => d0.get idKey) (some (PyVal.pstr s))
      (result.map Prod.fst) hnd
  have hscore : ∀ d ∈ result.map Prod.fst,
      oid_score_get (oid_scores ((result.map Prod.fst).zip
        (result.map Prod.snd))) d.oid = spec_score_of result d := by
    intro d _
    rw [zip_fst_snd, oid_score_get_eq]
    unfold spec_score_of
    rw [reverse_find?_of_nodup (fun p : Doc × ℚ => p.1.oid) d.oid result hoid2]
  have hmain : rerank_step gen rr result q k
      = (rr (result.map Prod.fst) q k).filterMap (fun s =>
          (spec_find_by_id (result.map Prod.fst) s).map
            (fun d0 => (d0, spec_score_of result d0))) := by
    unfold rerank_step
    rw [hassign]
    congr 1
    funext s
    rw [hlookup s]
    cases h : spec_find_by_id (result.map Prod.fst) s with
    | none => rfl
    | some d =>
      have hd : d ∈ result.map Prod.fst := List.mem_of_find?_eq_some h
      show some (d, oid_score_get (oid_scores
        ((result.map Prod.fst).zip (result.map Prod.snd)))
          d.oid) = Option.map (fun d0 => (d0, spec_score_of result d0)) (some d)
      rw [hscore d hd]
      rfl
  refine ⟨hmain, ?_, ?_⟩
  · intro p hp
    rw [hmain] at hp
    rcases List.mem_filterMap.mp hp with ⟨s, _, hps⟩
    cases h : spec_find_by_id (result.map Prod.fst) s with
    | none => rw [h] at hps; exact absurd hps (by simp)
    | some d =>
      rw [h] at hps
      have hps2 : (d, spec_score_of result d) = p := by simpa using hps
      have hd : d ∈ result.map Prod.fst := List.mem_of_find?_eq_some h
      rcases List.mem_map.mp hd with ⟨p0, hp0, hp0d⟩
      have hfs : (result.find? (fun pr => pr.1.oid = d.oid)).isSome := by
        rw [List.find?_isSome]
        exact ⟨p0, hp0, by simp [hp0d]⟩
      rcases Option.isSome_iff_exists.mp hfs with ⟨p1, hp1⟩
      have hp1mem : p1 ∈ result := List.mem_of_find?_eq_some hp1
      have hp1oid : p1.1.oid = d.oid := by
        have h2 := List.find?_some hp1
        exact of_decide_eq_true h2
      have hp1p0 : p1 = p0 := by
        apply List.inj_on_of_nodup_map hoid2 hp1mem hp0
        show p1.1.oid = p0.1.oid
        rw [hp1oid, hp0d]
      have hscore2 : spec_score_of result d = p0.2 := by
        unfold spec_score_of
        rw [hp1, hp1p0]
        rfl
      rw [← hps2, hscore2, ← hp0d]
      exact hp0
  · rw [hmain, List.map_filterMap]
    congr 1
    funext s
    cases h : spec_find_by_id (result.map Prod.fst) s with
    | none => rfl
    | some d => rfl

/-- A third concrete document sharing `wDoc1`'s identifier string. -/
def wDoc3 : Doc := ⟨3, [(idKey, PyVal.pstr "a"), (contentKey, PyVal.pstr "cat too")]⟩

/-- Witness for C5: the reranker's order `["b", "zz", "a"]` is authoritative
for the two-candidate result list. -/
theorem claim_C5_reranker_authority_witness :
    rerank_step (fun _ => "zz") (fun _ _ _ => ["b", "zz", "a"])
        [(wDoc1, 5), (wDoc2, 7)] "q" 2
      = (["b", "zz", "a"] : List String).filterMap (fun s =>
          (spec_find_by_id [wDoc1, wDoc2] s).map
            (fun d0 => (d0, spec_score_of [(wDoc1, 5), (wDoc2, 7)] d0))) :=
  (claim_C5_reranker_authority (fun _ => "zz") (fun _ _ _ => ["b", "zz", "a"])
    [(wDoc1, 5), (wDoc2, 7)] "q" 2 (by decide) (by decide) (by decide)).1

/-! ## C10 — duplicate identifier strings -/

/-- Claim C10: the reranker path resolves candidates solely by their `id`
value; the dict build retains the LAST candidate with each identifier, so
every returned document is the last candidate carrying its identifier, and a
candidate with a later same-identifier duplicate can never appear. -/
theorem claim_C10_duplicate_ids (gen : Nat → String)
    (rr : List Doc → String → Int → List String) (result : List (Doc × ℚ))
    (q : String) (k : Int)
    (hid : ∀ p ∈ result, p.1.get idKey ≠ none)
    (hoid : ((result.map Prod.fst).map Doc.oid).Nodup) :
    (∀ v, plookup (dict_of_docs (result.map Prod.fst)) v
        = (result.map Prod.fst).reverse.find? (fun d0 => d0.get idKey = some v))
    ∧ (∀ p ∈ rerank_step gen rr result q k,
        ∃ s ∈ rr (result.map Prod.fst) q k,
          (result.map Prod.fst).reverse.find?
            (fun d0 => d0.get idKey = some (PyVal.pstr s)) = some p.1)
    ∧ (∀ p ∈ rerank_step gen rr result q k, ∀ pre c post,
        result.map Prod.fst = pre ++ c :: post →
        (∃ c2 ∈ post, c2.get idKey = c.get idKey) → p.1 ≠ c) := by
  have hhas : ∀ d ∈ result.map Prod.fst, d.get idKey ≠ none := by
    intro d hd
    rcases List.mem_map.mp hd with ⟨p, hp, hpd⟩
    rw [← hpd]
    exact hid p hp
  have hassign : assign_ids gen 0 (result.map Prod.fst) = result.map Prod.fst :=
    assign_ids_of_has_id gen _ 0 hhas
  have h2 : ∀ p ∈ rerank_step gen rr result q k,
      ∃ s ∈ rr (result.map Prod.fst) q k,
        (result.map Prod.fst).reverse.find?
          (fun d0 => d0.get idKey = some (PyVal.pstr s)) = some p.1 := by
    intro p hp
    unfold rerank_step at hp
    rw [hassign] at hp
    rcases List.mem_filterMap.mp hp with ⟨s, hs, hmatch⟩
    cases hlk : plookup (dict_of_docs (result.map Prod.fst)) (PyVal.pstr s) with
    | none => rw [hlk] at hmatch; exact absurd hmatch (by simp)
    | some d =>
      rw [hlk] at hmatch
      refine ⟨s, hs, ?_⟩
      have hm2 : some (d, oid_score_get (oid_scores
          ((result.map Prod.fst).zip (result.map Prod.snd)))
            d.oid) = some p := hmatch
      have hdp : d = p.1 := by
        have h3 := Option.some_inj.mp hm2
        rw [← h3]
      rw [← plookup_dict_of_docs, hlk, hdp]
  refine ⟨fun v => plookup_dict_of_docs (result.map Prod.fst) v, h2, ?_⟩
  intro p hp pre c post hsplit hdup hpc
  rcases hdup with ⟨c2, hc2, hc2id⟩
  rcases h2 p hp with ⟨s, _, hfind⟩
  have hpid : p.1.get idKey = some (PyVal.pstr s) := by
    have h3 := List.find?_some hfind
    exact of_decide_eq_true h3
  rw [hpc] at hpid hfind
  rw [hsplit, List.reverse_append] at hfind
  have hcrev : (c :: post).reverse = post.reverse ++ [c] := List.reverse_cons c post
  rw [hcrev, List.find?_append, List.find?_append] at hfind
  have hpos : (post.reverse.find?
      (fun d0 => d0.get idKey = some (PyVal.pstr s))).isSome := by
    rw [List.find?_isSome]
    refine ⟨c2, List.mem_reverse.mpr hc2, ?_⟩
    simp [hc2id, hpid]
  rcases Option.isSome_iff_exists.mp hpos with ⟨c3, hc3⟩
  rw [hc3] at hfind
  have hc3c : c3 = c := by simpa using hfind
  have hc3mem : c3 ∈ post := List.mem_reverse.mp (List.mem_of_find?_eq_some hc3)
  rw [hc3c] at hc3mem
  rw [hsplit, List.map_append, List.map_cons] at hoid
  have hsub : (Doc.oid c :: post.map Doc.oid).Sublist
      (pre.map Doc.oid ++ Doc.oid c :: post.map Doc.oid) :=
    List.sublist_append_right _ _
  have hnd3 := List.Nodup.sublist hsub hoid
  obtain ⟨hnotin, _⟩ := List.nodup_cons.mp hnd3
  exact hnotin (List.mem_map.mpr ⟨c, hc3mem, rfl⟩)

/-- Witness for C10: with `wDoc1` and `wDoc3` both carrying identifier
`"a"`, the lookup retains the later candidate `wDoc3`. -/
theorem claim_C10_duplicate_ids_witness :
    plookup (dict_of_docs [wDoc1, wDoc3]) (PyVal.pstr "a")
      = [wDoc1, wDoc3].reverse.find?
          (fun d0 => d0.get idKey = some (PyVal.pstr "a")) :=
  (claim_C10_duplicate_ids (fun _ => "zz") (fun _ _ _ => ["a"])
    [(wDoc1, 5), (wDoc3, 7)] "q" 1 (by decide) (by decide)).1 (PyVal.pstr "a")

/-! ## C9 — zero-token documents -/

theorem build_index_caches (st : BM25State) :
    (build_index st).corpus_tokens = st.corpus_tokens
    ∧ (build_index st).doc_len = st.doc_len
    ∧ (build_index st).doc_freqs = st.doc_freqs
    ∧ (build_index st).k1 = st.k1 ∧ (build_index st).b = st.b := by
  unfold build_index calculate_idf
  split <;> exact ⟨rfl, rfl, rfl, rfl, rfl⟩

theorem spec_idf_lt_succ (N f : Nat) : spec_idf N f < spec_idf (N + 1) f := by
  unfold spec_idf
  have hf : (0 : ℝ) < (f : ℝ) + 1 / 2 := by positivity
  have key : ∀ M : Nat, (((M : ℝ) - (f : ℝ) + 1 / 2) / ((f : ℝ) + 1 / 2)) + 1
      = ((M : ℝ) + 1) / ((f : ℝ) + 1 / 2) := by
    intro M
    field_simp
    ring
  rw [key N, key (N + 1)]
  apply Real.log_lt_log
  · positivity
  · rw [div_lt_div_iff_of_pos_right hf]
    push_cast
    linarith

theorem compute_bm25_score_of_empty_tokens (st : BM25State) (qts : List String)
    (j : Nat) (hj : st.corpus_tokens.getD j [] = []) :
    compute_bm25_score st qts j = 0 := by
  rw [compute_bm25_score_eq_spec]
  unfold spec_bm25_score
  apply List.sum_eq_zero
  intro x hx
  rcases List.mem_map.mp hx with ⟨t, _, ht⟩
  rw [← ht]
  cases h : alookup st.idf t with
  | none => rfl
  | some v =>
    simp only [hj]
    unfold spec_bm25_term
    simp

theorem build_preserves_wf (tok : String → List String) (st : BM25State)
    (hwf : bm25_wf tok st) : bm25_wf tok (build_index st) := by
  rcases build_index_caches st with ⟨h1, h2, _, _, _⟩
  unfold bm25_wf
  rw [build_index_documents, h1, h2]
  exact hwf

theorem wf_corpus_getD (tok : String → List String) (st : BM25State)
    (hwf : bm25_wf tok st) (j : Nat) (hj : j < st.documents.length) :
    st.corpus_tokens.getD j [] = docTokens tok (st.documents.getD j default) := by
  rcases hwf with ⟨_, h2, _⟩
  rw [h2, List.getD_eq_getElem _ _ (by simpa using hj),
    List.getD_eq_getElem _ _ hj, List.getElem_map]

theorem mem_bm25_raw_scores_structure (st : BM25State) (qts : List String)
    (p : ℝ × Doc) (hp : p ∈ bm25_raw_scores st qts) :
    ∃ j : Nat, j < st.documents.length ∧ st.documents.getD j default = p.2
      ∧ ((epsScore : ℚ) : ℝ) < p.1 ∧ p.1 = compute_bm25_score st qts j := by
  unfold bm25_raw_scores at hp
  rcases List.mem_filterMap.mp hp with ⟨a, ha, hae⟩
  by_cases hc : ((epsScore : ℚ) : ℝ) < compute_bm25_score st qts a.1
  · rw [if_pos hc, Option.some_inj] at hae
    have hga := List.mem_enum_iff_getElem?.mp ha
    rcases List.getElem?_eq_some_iff.mp hga with ⟨hlt, hget⟩
    refine ⟨a.1, hlt, ?_, ?_, ?_⟩
    · rw [List.getD_eq_getElem _ _ hlt, hget, ← hae]
    · rw [← hae]; exact hc
    · rw [← hae]
  · rw [if_neg hc] at hae
    exact absurd hae (by simp)

theorem epsR_pos : (0 : ℝ) < ((epsScore : ℚ) : ℝ) := by
  rw [show epsScore = 1 / 1000000000 from rfl]
  norm_num

/-- A document with string content whose tokenization is empty is never a
member of any `BM25Index.search` result on a well-formed index. -/
theorem bm25_search_excludes (tok : String → List String) (st : BM25State)
    (d : Doc) (q : String) (k : Int) (factor : ℚ) (out : List (Doc × ℝ))
    (hwf : bm25_wf tok st) (hd : docTokens tok d = [])
    (hs : bm25_search tok st q k factor = some out) (s : ℝ) : (d, s) ∉ out := by
  intro hmem
  unfold bm25_search at hs
  by_cases h1 : st.documents.isEmpty = true
  · rw [if_pos h1, Option.some_inj] at hs
    subst hs
    exact List.not_mem_nil _ hmem
  · rw [if_neg h1] at hs
    by_cases h2 : k ≤ 0
    · rw [if_pos h2] at hs
      exact absurd hs (by simp)
    · rw [if_neg h2] at hs
      by_cases h3 : (if st.index_built then st else build_index st).avg_doc_len = 0
      · rw [if_pos h3, Option.some_inj] at hs
        subst hs
        exact List.not_mem_nil _ hmem
      · rw [if_neg h3] at hs
        by_cases h4 : (tok q).isEmpty = true
        · rw [if_pos h4, Option.some_inj] at hs
          subst hs
          exact List.not_mem_nil _ hmem
        · rw [if_neg h4, Option.some_inj] at hs
          subst hs
          have hwf1 : bm25_wf tok (if st.index_built then st else build_index st) := by
            by_cases hb : st.index_built = true
            · rw [if_pos hb]; exact hwf
            · rw [if_neg hb]; exact build_preserves_wf tok st hwf
          rw [List.mem_insertionSort] at hmem
          rcases List.mem_map.mp hmem with ⟨p, hp, hpe⟩
          have hpd : p.2 = d := congrArg Prod.fst hpe
          have hpraw : p ∈ bm25_raw_scores
              (if st.index_built then st else build_index st) (tok q) := by
            have := List.mem_insertionSort
              (r := fun a b : ℝ × Doc => b.1 ≤ a.1)
              (l := bm25_raw_scores
                (if st.index_built then st else build_index st) (tok q))
              (x := p)
            exact this.mp ((List.take_sublist _ _).mem hp)
          rcases mem_bm25_raw_scores_structure _ (tok q) p hpraw
            with ⟨j, hj, hjd, hgt, hscore⟩
          have htoks : (if st.index_built then st
              else build_index st).corpus_tokens.getD j [] = [] := by
            rw [wf_corpus_getD tok _ hwf1 j hj, hjd, hpd, hd]
          have hzero := compute_bm25_score_of_empty_tokens _ (tok q) j htoks
          rw [hscore, hzero] at hgt
          exact absurd hgt (not_lt.mpr (le_of_lt epsR_pos))

/-- Claim C9: a document whose content tokenizes to no tokens is accepted by
`BM25Index.add_document`; it is stored, raises the document count used by
IDF by one while leaving every document frequency unchanged (so every IDF
value strictly increases on rebuild), contributes length 0 to the average
document length, and is never returned by any search because its raw score
is 0 for every query. -/
theorem claim_C9_zero_token_document (tok : String → List String)
    (st : BM25State) (d : Doc) (c : String) (hwf : bm25_wf tok st)
    (hc : d.get contentKey = some (PyVal.pstr c)) (h0 : tok c = []) :
    ∃ st', bm25_add_document tok st d = some st'
    ∧ st'.documents = st.documents ++ [d]
    ∧ st'.documents.length = st.documents.length + 1
    ∧ st'.doc_len = st.doc_len ++ [0]
    ∧ st'.doc_len.sum = st.doc_len.sum
    ∧ st'.doc_freqs = st.doc_freqs
    ∧ bm25_wf tok st'
    ∧ (build_index st').avg_doc_len
        = (st.doc_len.sum : ℚ) / ((st.documents.length : ℚ) + 1)
    ∧ (st.documents ≠ [] → ∀ t f, alookup st.doc_freqs t = some f →
        alookup (build_index st).idf t = some (spec_idf st.documents.length f)
        ∧ alookup (build_index st').idf t
            = some (spec_idf (st.documents.length + 1) f)
        ∧ spec_idf st.documents.length f < spec_idf (st.documents.length + 1) f)
    ∧ (∀ (st2 : BM25State) (qts : List String) (j : Nat),
        bm25_wf tok st2 → st2.documents.getD j default = d →
        compute_bm25_score st2 qts j = 0)
    ∧ (∀ q k factor out, bm25_search tok st' q k factor = some out →
        ∀ s, (d, s) ∉ out) := by
  have hdt : docTokens tok d = [] := by
    unfold docTokens
    rw [hc]
    simp [h0]
  have hadd : bm25_add_document tok st d = some (BM25State.mk
      (st.documents ++ [d]) (st.corpus_tokens ++ [[]]) (st.doc_len ++ [0])
      st.doc_freqs st.avg_doc_len st.idf false st.k1 st.b) := by
    unfold bm25_add_document update_stats_add
    rw [hc]
    simp [h0]
    rw [show ([] : List String).eraseDups = [] from rfl, List.foldl_nil]
  refine ⟨_, hadd, rfl, by simp, rfl, by simp, rfl, ?_, ?_, ?_, ?_, ?_⟩
  · -- well-formedness of the new state
    refine ⟨?_, ?_, ?_⟩
    · intro d0 hd0
      rcases List.mem_append.mp hd0 with h | h
      · exact hwf.1 d0 h
      · rw [List.mem_singleton.mp h]
        unfold Doc.strContent
        rw [hc]
    · show st.corpus_tokens ++ [[]] = (st.documents ++ [d]).map (docTokens tok)
      rw [List.map_append, ← hwf.2.1]
      simp [hdt]
    · show st.doc_len ++ [0] = (st.corpus_tokens ++ [[]]).map List.length
      rw [List.map_append, ← hwf.2.2]
      rfl
  · -- average document length after rebuild
    rw [build_index_avg _ (by simp)]
    simp
  · -- IDF strictly increases for every tabulated term
    intro hne t f hf
    refine ⟨?_, ?_, spec_idf_lt_succ st.documents.length f⟩
    · rw [alookup_build_idf st hne t, hf]
      rfl
    · rw [alookup_build_idf _ (by simp) t]
      show (alookup st.doc_freqs t).map
        (spec_idf (st.documents ++ [d]).length) = _
      rw [hf]
      simp
  · -- a zero-token document raw-scores 0 in any well-formed state
    intro st2 qts j hwf2 hj
    by_cases hlt : j < st2.documents.length
    · apply compute_bm25_score_of_empty_tokens
      rw [wf_corpus_getD tok st2 hwf2 j hlt, hj, hdt]
    · rw [List.getD_eq_default _ _ (le_of_not_lt hlt)] at hj
      have : d.get contentKey = none := by
        rw [← hj]
        rfl
      rw [this] at hc
      exact absurd hc (by simp)
  · -- and is therefore never returned by a search on the new state
    intro q k factor out hs s
    apply bm25_search_excludes tok _ d q k factor out _ hdt hs
    refine ⟨?_, ?_, ?_⟩
    · intro d0 hd0
      rcases List.mem_append.mp hd0 with h | h
      · exact hwf.1 d0 h
      · rw [List.mem_singleton.mp h]
        unfold Doc.strContent
        rw [hc]
    · show st.corpus_tokens ++ [[]] = (st.documents ++ [d]).map (docTokens tok)
      rw [List.map_append, ← hwf.2.1]
      simp [hdt]
    · show st.doc_len ++ [0] = (st.corpus_tokens ++ [[]]).map List.length
      rw [List.map_append, ← hwf.2.2]
      rfl

/-- Witness for C9: adding the punctuation-only document `"!!! ???"` to a
one-document index succeeds. -/
theorem claim_C9_zero_token_document_witness :
    ∃ st', bm25_add_document default_tokenizer
      (BM25State.mk [⟨1, [(contentKey, PyVal.pstr "cat sat")]⟩]
        [["cat", "sat"]] [2] [("cat", 1), ("sat", 1)] 0 [] false
        (3 / 2) (3 / 4))
      ⟨2, [(contentKey, PyVal.pstr "!!! ???")]⟩ = some st' :=
  ⟨_, ((claim_C9_zero_token_document default_tokenizer _
    ⟨2, [(contentKey, PyVal.pstr "!!! ???")]⟩ "!!! ???"
    (by refine ⟨?_, ?_, ?_⟩ <;> decide) (by decide) (by decide)).choose_spec).1⟩

end KlerRag
